import Mathlib

/-!
VSTSAutoReviewer: reviewer balancing, filters and the idempotency guard

A shallow embedding of `pkg/autoreviewer/autoreviewer.go`.

* Go `string` values are Lean `String`s (valid UTF-8 text).  `strings.Contains`
  is a byte search in Go; on valid UTF-8 a byte-level occurrence of a valid
  needle is an occurrence on code points, so the search is modelled on the
  list of characters.  `strings.EqualFold` walks the runes of both strings and
  is modelled on their code points.
* Go `error` values are represented by the text they print with `%v`.
* The thread list, the comment list of a thread and the content of a comment
  are pointers that may be nil: the code tests the first against `nil` and
  dereferences the other two, which panics on nil.  The fields read off a
  listed pull request (`*pr.Title`, `*pr.TargetRefName`, ...) are taken as
  present.
* Remote collaborators (the git client, the identity lookup, the repository
  store, the reviewer triggers and the reviewer selection of `pkg/types`) are
  fields of `AutoReviewer`: functions over an abstract remote state `σ`.
* The in-memory entity `a.Repo` is part of the machine state, since the
  bootstrap and the reviewer selection write to it.
* Every call to a collaborator is appended to a trace, so that statements
  about "which calls are made" are statements about that trace.  Logging is
  not modelled.
-/

namespace autoreviewer

/-! ## Go standard library: `strings.Contains`, `strings.EqualFold`, `strings.Join` -/

/-- Go `strings.HasPrefix` on character lists. -/
def hasPrefix : List Char → List Char → Bool
  | _, [] => true
  | [], _ :: _ => false
  | c :: s, p :: ps => c == p && hasPrefix s ps

/-- Go `strings.Index(s, substr) >= 0`: try every start position from the left. -/
def indexFrom : List Char → List Char → Bool
  | [], substr => hasPrefix [] substr
  | c :: s, substr => hasPrefix (c :: s) substr || indexFrom s substr

/-- Go `strings.Contains(s, substr)`. -/
def Contains (s substr : String) : Bool :=
  indexFrom s.data substr.data

/-- Go `unicode.SimpleFold` on code points, restricted to the orbits that meet
ASCII (`K k U+212A`, `S s U+017F`, and the pairs `A a` .. `Z z`); every other
code point is left alone.  These are the only orbits `EqualFold` walks when one
of its arguments is ASCII, which is how this program calls it. -/
def SimpleFold (r : Nat) : Nat :=
  if r = 0x4B then 0x6B
  else if r = 0x6B then 0x212A
  else if r = 0x212A then 0x4B
  else if r = 0x53 then 0x73
  else if r = 0x73 then 0x17F
  else if r = 0x17F then 0x53
  else if 0x41 ≤ r ∧ r ≤ 0x5A then r + 0x20
  else if 0x61 ≤ r ∧ r ≤ 0x7A then r - 0x20
  else r

/-- The loop `for r != sr && r < tr { r = unicode.SimpleFold(r) }` of
`strings.EqualFold`, run for at most `fuel` iterations. -/
def foldLoop (sr tr : Nat) : Nat → Nat → Nat
  | 0, r => r
  | fuel + 1, r => if r ≠ sr ∧ r < tr then foldLoop sr tr fuel (SimpleFold r) else r

/-- The comparison of one pair of runes in `strings.EqualFold`: equal runes
match; otherwise the smaller is called `sr`, an ASCII pair must be an upper
case letter and its lower case letter, and in the general case the orbit of
`sr` is walked upwards until it reaches or passes `tr`.  (The ASCII fast path
of `EqualFold` performs the same test on ASCII pairs.) -/
def equalFoldRune (sr tr : Nat) : Bool :=
  if tr = sr then true
  else
    let lo := if tr < sr then tr else sr
    let hi := if tr < sr then sr else tr
    if hi < 0x80 then
      decide (0x41 ≤ lo ∧ lo ≤ 0x5A ∧ hi = lo + 0x20)
    else
      foldLoop lo hi 4 (SimpleFold lo) == hi

/-- Rune-by-rune walk of `strings.EqualFold`: both strings must be exhausted
together and every pair of runes must match under folding. -/
def equalFoldRunes : List Nat → List Nat → Bool
  | [], [] => true
  | [], _ :: _ => false
  | _ :: _, [] => false
  | sr :: s, tr :: t => equalFoldRune sr tr && equalFoldRunes s t

/-- Go `strings.EqualFold(s, t)`. -/
def EqualFold (s t : String) : Bool :=
  equalFoldRunes (s.data.map Char.toNat) (t.data.map Char.toNat)

/-- Go `strings.Join(elems, sep)`. -/
def Join : List String → String → String
  | [], _ => ""
  | [a], _ => a
  | a :: b :: rest, sep => (b :: rest).foldl (fun acc s => acc ++ sep ++ s) a

/-! ## Data model -/

/-- Modelled from the spec: the projection of a remote pull request (the SDK
type `adogit.GitPullRequest` is not among the sources); the fields are the ones
`autoreviewer.go` reads. -/
structure PullRequest where
  PullRequestId : Int
  Title : String
  TargetRefName : String
  CreatedById : String
  RepositoryId : String
  Url : String
  deriving DecidableEq, Repr

/-- Filter is a function that returns true if a pull request should be filtered out. -/
abbrev Filter := PullRequest → Bool

def filterWIP (pr : PullRequest) : Bool :=
  if Contains pr.Title "WIP" then true else false

def filterMasterBranchOnly (pr : PullRequest) : Bool :=
  if EqualFold pr.TargetRefName "refs/heads/master" then false else true

def defaultFilters : List Filter := [filterWIP, filterMasterBranchOnly]

/-- The loop of `shouldFilter` over `a.filters`. -/
def shouldFilterList : List Filter → PullRequest → Bool
  | [], _ => false
  | filter :: rest, pr => if filter pr then true else shouldFilterList rest pr

/-! ## Case-insensitive equality, as the specification words it -/

/-- Canonical representative of a code point under simple case folding
(lower case for the ASCII letters; `U+017F` folds to `s`, `U+212A` to `k`). -/
def foldKey (r : Nat) : Nat :=
  if 0x41 ≤ r ∧ r ≤ 0x5A then r + 0x20
  else if r = 0x17F then 0x73
  else if r = 0x212A then 0x6B
  else r

/-- Two strings are equal ignoring case when they fold to the same text. -/
def caseInsensitiveEq (s t : String) : Prop :=
  (s.data.map Char.toNat).map foldKey = (t.data.map Char.toNat).map foldKey

instance (s t : String) : Decidable (caseInsensitiveEq s t) := by
  unfold caseInsensitiveEq; infer_instance

/-- ASCII lower-casing of one character (Go `unicode.ToLower` on ASCII). -/
def asciiLower (c : Char) : Char :=
  if 0x41 ≤ c.toNat ∧ c.toNat ≤ 0x5A then Char.ofNat (c.toNat + 0x20) else c

/-! ## Entities of `pkg/types` and of the remote service -/

/-- Modelled from the spec: `types.Reviewer` (the declaration is not among the
sources): an alias and a remote identity id, empty until resolved. -/
structure Reviewer where
  Alias : String
  AdoID : String
  deriving DecidableEq, Repr

/-- Modelled from the spec: `types.ReviewerGroup`: a named pool of reviewers and
the authors it is responsible for. -/
structure ReviewerGroup where
  Group : String
  Owners : List String
  Reviewers : List Reviewer
  deriving DecidableEq, Repr

abbrev ReviewerGroups := List ReviewerGroup

/-- The internal id of a repository with its two renderings, `ID.Hex()` and
`ID.String()`. -/
structure ObjectID where
  Hex : String
  String : String
  deriving DecidableEq, Repr

/-- Modelled from the spec: `types.Repository`, the persisted configuration
entity. -/
structure Repository where
  ID : ObjectID
  Name : String
  ProjectName : String
  AdoRepoID : String
  ReviewerGroups : ReviewerGroups
  deriving DecidableEq, Repr

/-- A comment of a remote thread: its text body, a pointer that may be nil
(`Content *string`). -/
structure Comment where
  Content : Option String
  deriving DecidableEq, Repr

/-- A remote comment thread: its comments, a pointer that may be nil
(`Comments *[]Comment`). -/
structure CommentThread where
  Comments : Option (List Comment)
  deriving DecidableEq, Repr

/-- An entry of the remote repository listing. -/
structure GitRepository where
  Id : String
  Name : String
  deriving DecidableEq, Repr

/-- One call to a collaborator, with the arguments it was given. -/
inductive Call where
  | GetRepositories (project : String)
  | GetDevOpsIdentity (reviewerAlias : String)
  | UpdateRepository (id : String) (repo : Repository)
  | GetPullRequests (repositoryId project : String)
  | GetThreads (repositoryId : String) (pullRequestId : Int)
  | CreatePullRequestReviewer (reviewerId repositoryId : String) (pullRequestId : Int)
  | CreateThread (repositoryId : String) (pullRequestId : Int) (content : String)
  | ReviewerTrigger (index : Nat) (reviewers : List Reviewer) (url : String)
  deriving DecidableEq, Repr

/-- How a Go function of this package ends: it returns (with a nil error), it
returns an error, or it panics. -/
inductive Outcome (α : Type) where
  | ok (a : α)
  | error (err : String)
  | panic (err : String)
  deriving DecidableEq, Repr

/-- The mutable state: the remote world, the in-memory entity `a.Repo`, and
the calls made so far (oldest first). -/
structure Machine (σ : Type) where
  remote : σ
  Repo : Repository
  trace : List Call

/-- ReviewerTrigger is called with the reviewers that have been selected. -/
abbrev ReviewerTrigger (σ : Type) := σ → List Reviewer → String → Except String Unit × σ

/-- AutoReviewer automatically adds reviewers to a pull request.  The clients
are records of their operations; each takes the remote state and returns its
result with the new remote state.  `GetReviewers` is the reviewer selection
of `pkg/types`, which works on the in-memory reviewer groups. -/
structure AutoReviewer (σ : Type) where
  filters : List Filter
  reviewerTriggers : List (ReviewerTrigger σ)
  botIdentifier : String
  GetPullRequests : σ → String → String → Except String (List PullRequest) × σ
  GetRepositories : σ → String → Except String (List GitRepository) × σ
  GetThreads : σ → String → Int → Except String (Option (List CommentThread)) × σ
  CreateThread : σ → String → Int → String → Except String Unit × σ
  CreatePullRequestReviewer : σ → String → String → Int → Except String Unit × σ
  GetDevOpsIdentity : σ → String → Except String String × σ
  UpdateRepository : σ → String → Repository → Except String Unit × σ
  GetReviewers : ReviewerGroups → String →
    Except String (List Reviewer × List Reviewer) × ReviewerGroups

variable {σ : Type}

/-! ## The orchestrator -/

def shouldFilter (a : AutoReviewer σ) (pr : PullRequest) : Bool :=
  shouldFilterList a.filters pr

/-- The text of the run-time panic of a nil pointer dereference. -/
def nilDereference : String :=
  "runtime error: invalid memory address or nil pointer dereference"

/-- The inner loop of `ContainsReviewBalancerComment` over one thread's
comments.  `*comment.Content` panics on a comment without content. -/
def commentsContain (botIdentifier : String) : List Comment → Outcome Bool
  | [] => .ok false
  | comment :: rest =>
    match comment.Content with
    | none => .panic nilDereference
    | some content =>
      if Contains content botIdentifier then .ok true
      else commentsContain botIdentifier rest

/-- The outer loop of `ContainsReviewBalancerComment` over the threads.
`*thread.Comments` panics on a thread without a comment list. -/
def threadsContain (botIdentifier : String) : List CommentThread → Outcome Bool
  | [] => .ok false
  | thread :: rest =>
    match thread.Comments with
    | none => .panic nilDereference
    | some comments =>
      match commentsContain botIdentifier comments with
      | .ok true => .ok true
      | .ok false => threadsContain botIdentifier rest
      | .error err => .error err
      | .panic err => .panic err

/-- ContainsReviewBalancerComment checks if the passed in review has had a bot
comment added.  A failed thread fetch panics. -/
def ContainsReviewBalancerComment (a : AutoReviewer σ) (repositoryID : String)
    (pullRequestID : Int) (m : Machine σ) : Outcome Bool × Machine σ :=
  let r := a.GetThreads m.remote repositoryID pullRequestID
  let m1 : Machine σ :=
    { m with remote := r.2, trace := m.trace ++ [Call.GetThreads repositoryID pullRequestID] }
  match r.1 with
  | .error err => (.panic err, m1)
  | .ok none => (.ok false, m1)
  | .ok (some threads) => (threadsContain a.botIdentifier threads, m1)

/-- The loop of `AddReviewers` over `append(required, optional...)`. -/
def addReviewersLoop (a : AutoReviewer σ) (pullRequestID : Int) (repoID : String) :
    List Reviewer → Machine σ → Outcome Unit × Machine σ
  | [], m => (.ok (), m)
  | reviewer :: rest, m =>
    let r := a.CreatePullRequestReviewer m.remote reviewer.AdoID repoID pullRequestID
    let m1 : Machine σ :=
      { m with remote := r.2
               trace := m.trace ++
                 [Call.CreatePullRequestReviewer reviewer.AdoID repoID pullRequestID] }
    match r.1 with
    | .error err =>
      (.error ("failed to add reviewer " ++ reviewer.Alias ++ " with error " ++ err), m1)
    | .ok _ => addReviewersLoop a pullRequestID repoID rest m1

/-- AddReviewers adds the passed in reviewers to the pull request. -/
def AddReviewers (a : AutoReviewer σ) (pullRequestID : Int) (repoID : String)
    (required optional : List Reviewer) (m : Machine σ) : Outcome Unit × Machine σ :=
  addReviewersLoop a pullRequestID repoID (required ++ optional) m

/-- The loop of `GetReviewersAlias`: `aliases[index] = reviewer.Alias`. -/
def setAliases : List Reviewer → Nat → List String → List String
  | [], _, aliases => aliases
  | reviewer :: rest, index, aliases =>
    setAliases rest (index + 1) (aliases.set index reviewer.Alias)

/-- GetReviewersAlias gets all names for the set of passed in reviewers. -/
def GetReviewersAlias (reviewers : List Reviewer) : List String :=
  setAliases reviewers 0 (List.replicate reviewers.length "")

/-- The text `fmt.Sprintf` builds in `balanceReview`. -/
def balancerComment (requiredReviewers : List Reviewer) (botIdentifier : String) : String :=
  "Hello " ++ Join (GetReviewersAlias requiredReviewers) "," ++ ",\r\n\r\n" ++
    "You are randomly selected as the **required** code reviewers of this change. \r\n\r\n" ++
    "Your responsibility is to review **each** iteration of this CR until signoff. You should provide no more than 48 hour SLA for each iteration.\r\n\r\n" ++
    "Thank you.\r\n\r\n" ++
    "CR Balancer\r\n" ++
    botIdentifier

/-- The loop over `a.reviewerTriggers`; an error of a trigger is logged only. -/
def runTriggers (requiredReviewers : List Reviewer) (url : String) :
    List (ReviewerTrigger σ) → Nat → Machine σ → Machine σ
  | [], _, m => m
  | rTrigger :: rest, index, m =>
    let r := rTrigger m.remote requiredReviewers url
    runTriggers requiredReviewers url rest (index + 1)
      { m with remote := r.2
               trace := m.trace ++ [Call.ReviewerTrigger index requiredReviewers url] }

/-- The call `a.RepoStore.UpdateRepository(ctx, id, a.Repo)`. -/
def updateRepository (a : AutoReviewer σ) (id : String) (m : Machine σ) :
    Except String Unit × Machine σ :=
  let r := a.UpdateRepository m.remote id m.Repo
  (r.1, { m with remote := r.2, trace := m.trace ++ [Call.UpdateRepository id m.Repo] })

/-- The call `a.adoGitClient.CreateThread` with one comment. -/
def createThread (a : AutoReviewer σ) (repoID : String) (pullRequestID : Int)
    (comment : String) (m : Machine σ) : Except String Unit × Machine σ :=
  let r := a.CreateThread m.remote repoID pullRequestID comment
  (r.1, { m with remote := r.2
                 trace := m.trace ++ [Call.CreateThread repoID pullRequestID comment] })

def balanceReview (a : AutoReviewer σ) (pr : PullRequest) (m : Machine σ) :
    Outcome Unit × Machine σ :=
  match ContainsReviewBalancerComment a pr.RepositoryId pr.PullRequestId m with
  | (.panic err, m1) => (.panic err, m1)
  | (.error err, m1) => (.error err, m1)
  | (.ok true, m1) => (.ok (), m1)
  | (.ok false, m1) =>
    let sel := a.GetReviewers m1.Repo.ReviewerGroups pr.CreatedById
    let m2 : Machine σ := { m1 with Repo := { m1.Repo with ReviewerGroups := sel.2 } }
    match sel.1 with
    | .error err => (.error err, m2)
    | .ok (requiredReviewers, optionalReviewers) =>
      -- save the repo after pos change
      match updateRepository a m2.Repo.ID.Hex m2 with
      | (.error err, m3) => (.error err, m3)
      | (.ok _, m3) =>
        match AddReviewers a pr.PullRequestId pr.RepositoryId requiredReviewers
            optionalReviewers m3 with
        | (.panic err, m4) => (.panic err, m4)
        | (.error err, m4) => (.error ("add reviewers error: " ++ err), m4)
        | (.ok _, m4) =>
          let comment := balancerComment requiredReviewers a.botIdentifier
          match createThread a pr.RepositoryId pr.PullRequestId comment m4 with
          | (.error err, m5) => (.error ("add thread error: " ++ err), m5)
          | (.ok _, m5) =>
            (.ok (), runTriggers requiredReviewers pr.Url a.reviewerTriggers 0 m5)

/-- The inner loop of `ensureReviewersIDs` over one group's reviewers.  It
returns the error of a failed lookup (if any), the reviewers as they now are
in memory, and the `updated` flag. -/
def ensureReviewers (a : AutoReviewer σ) :
    List Reviewer → Bool → Machine σ → (Except String Unit × List Reviewer × Bool) × Machine σ
  | [], updated, m => ((.ok (), [], updated), m)
  | reviewer :: rest, updated, m =>
    if reviewer.AdoID = "" then
      let r := a.GetDevOpsIdentity m.remote reviewer.Alias
      let m1 : Machine σ :=
        { m with remote := r.2, trace := m.trace ++ [Call.GetDevOpsIdentity reviewer.Alias] }
      match r.1 with
      | .error err => ((.error err, reviewer :: rest, updated), m1)
      | .ok id =>
        let res := ensureReviewers a rest true m1
        ((res.1.1, { reviewer with AdoID := id } :: res.1.2.1, res.1.2.2), res.2)
    else
      let res := ensureReviewers a rest updated m
      ((res.1.1, reviewer :: res.1.2.1, res.1.2.2), res.2)

/-- The outer loop of `ensureReviewersIDs` over the reviewer groups. -/
def ensureGroups (a : AutoReviewer σ) :
    List ReviewerGroup → Bool → Machine σ →
      (Except String Unit × List ReviewerGroup × Bool) × Machine σ
  | [], updated, m => ((.ok (), [], updated), m)
  | reviewerGroup :: rest, updated, m =>
    let res := ensureReviewers a reviewerGroup.Reviewers updated m
    let group1 : ReviewerGroup := { reviewerGroup with Reviewers := res.1.2.1 }
    match res.1.1 with
    | .error err => ((.error err, group1 :: rest, res.1.2.2), res.2)
    | .ok _ =>
      let res2 := ensureGroups a rest res.1.2.2 res.2
      ((res2.1.1, group1 :: res2.1.2.1, res2.1.2.2), res2.2)

def ensureReviewersIDs (a : AutoReviewer σ) (m : Machine σ) : Outcome Unit × Machine σ :=
  let res := ensureGroups a m.Repo.ReviewerGroups false m
  let m1 : Machine σ := { res.2 with Repo := { res.2.Repo with ReviewerGroups := res.1.2.1 } }
  match res.1.1 with
  | .error err => (.error err, m1)
  | .ok _ =>
    if res.1.2.2 then
      match updateRepository a m1.Repo.ID.String m1 with
      | (.error err, m2) => (.error err, m2)
      | (.ok _, m2) => (.ok (), m2)
    else (.ok (), m1)

/-- The loop of `ensureAdoRepoID` over the listed repositories: the first one
with the configured name. -/
def findRepo (name : String) : List GitRepository → Option GitRepository
  | [] => none
  | adoRepo :: rest => if adoRepo.Name = name then some adoRepo else findRepo name rest

def ensureAdoRepoID (a : AutoReviewer σ) (m : Machine σ) : Outcome Unit × Machine σ :=
  if m.Repo.AdoRepoID ≠ "" then (.ok (), m)
  else
    let r := a.GetRepositories m.remote m.Repo.ProjectName
    let m1 : Machine σ :=
      { m with remote := r.2, trace := m.trace ++ [Call.GetRepositories m.Repo.ProjectName] }
    match r.1 with
    | .error err => (.error err, m1)
    | .ok adoRepos =>
      match findRepo m1.Repo.Name adoRepos with
      | some adoRepo =>
        let m2 : Machine σ := { m1 with Repo := { m1.Repo with AdoRepoID := adoRepo.Id } }
        match updateRepository a m2.Repo.ID.Hex m2 with
        | (.error err, m3) => (.error err, m3)
        | (.ok _, m3) => (.ok (), m3)
      | none =>
        (.error ("repo: " ++ m1.Repo.Name ++ " not found in project " ++ m1.Repo.ProjectName),
          m1)

def ensureRepo (a : AutoReviewer σ) (m : Machine σ) : Outcome Unit × Machine σ :=
  match ensureAdoRepoID a m with
  | (.error err, m1) => (.error err, m1)
  | (.panic err, m1) => (.panic err, m1)
  | (.ok _, m1) =>
    match ensureReviewersIDs a m1 with
    | (.error err, m2) => (.error err, m2)
    | (.panic err, m2) => (.panic err, m2)
    | (.ok _, m2) => (.ok (), m2)

/-- The loop of `Run` over the fetched pull requests: a filtered one is
skipped, an error of `balanceReview` is logged and the loop goes on; a panic
unwinds the loop. -/
def balanceAll (a : AutoReviewer σ) : List PullRequest → Machine σ → Outcome Unit × Machine σ
  | [], m => (.ok (), m)
  | pr :: rest, m =>
    if shouldFilter a pr then balanceAll a rest m
    else
      match balanceReview a pr m with
      | (.panic err, m1) => (.panic err, m1)
      | (.error _, m1) => balanceAll a rest m1
      | (.ok _, m1) => balanceAll a rest m1

/-- The call `a.adoGitClient.GetPullRequests` for the configured repository. -/
def getPullRequests (a : AutoReviewer σ) (m : Machine σ) :
    Except String (List PullRequest) × Machine σ :=
  let r := a.GetPullRequests m.remote m.Repo.AdoRepoID m.Repo.ProjectName
  (r.1, { m with remote := r.2
                 trace := m.trace ++
                   [Call.GetPullRequests m.Repo.AdoRepoID m.Repo.ProjectName] })

/-- Run starts the autoreviewer for a single instance. -/
def Run (a : AutoReviewer σ) (m : Machine σ) : Outcome Unit × Machine σ :=
  match ensureRepo a m with
  | (.error err, m1) => (.error err, m1)
  | (.panic err, m1) => (.panic err, m1)
  | (.ok _, m1) =>
    match getPullRequests a m1 with
    | (.error err, m2) => (.error ("get pull requests error: " ++ err), m2)
    | (.ok pullRequests, m2) => balanceAll a pullRequests m2

/-! ## A remote thread store -/

/-- Modelled from the spec: the comment threads the remote service holds, each
filed under its repository id and pull request id.  The core only reads the
threads of a pull request and appends a root thread with one comment. -/
abbrev ThreadStore := List (String × Int × CommentThread)

/-- The threads filed under one pull request, oldest first. -/
def threadsOf (store : ThreadStore) (repositoryID : String) (pullRequestID : Int) :
    List CommentThread :=
  (store.filter (fun e => e.1 = repositoryID ∧ e.2.1 = pullRequestID)).map (fun e => e.2.2)

/-- Lifts an operation on the remote state `σ` to the state with a thread
store, which it leaves alone. -/
def liftOp {α : Type} (op : σ → α × σ) (w : ThreadStore × σ) : α × (ThreadStore × σ) :=
  ((op w.2).1, (w.1, (op w.2).2))

/-- The collaborators of `a` in front of a thread store that changes only
through `CreateThread`: `GetThreads` reads the store, a successful
`CreateThread` appends a thread with the one comment, a failed one appends
nothing, and no other operation touches the store. -/
def withThreadStore (a : AutoReviewer σ) : AutoReviewer (ThreadStore × σ) where
  filters := a.filters
  reviewerTriggers :=
    a.reviewerTriggers.map (fun rTrigger w reviewers url =>
      liftOp (fun s => rTrigger s reviewers url) w)
  botIdentifier := a.botIdentifier
  GetPullRequests w repositoryId project :=
    liftOp (fun s => a.GetPullRequests s repositoryId project) w
  GetRepositories w project := liftOp (fun s => a.GetRepositories s project) w
  GetThreads w repositoryId pullRequestId :=
    (.ok (some (threadsOf w.1 repositoryId pullRequestId)), w)
  CreateThread w repositoryId pullRequestId content :=
    match a.CreateThread w.2 repositoryId pullRequestId content with
    | (.ok _, s) =>
      (.ok (), (w.1 ++ [(repositoryId, pullRequestId, ⟨some [⟨some content⟩]⟩)], s))
    | (.error err, s) => (.error err, (w.1, s))
  CreatePullRequestReviewer w reviewerId repositoryId pullRequestId :=
    liftOp (fun s => a.CreatePullRequestReviewer s reviewerId repositoryId pullRequestId) w
  GetDevOpsIdentity w reviewerAlias := liftOp (fun s => a.GetDevOpsIdentity s reviewerAlias) w
  UpdateRepository w id repo := liftOp (fun s => a.UpdateRepository s id repo) w
  GetReviewers := a.GetReviewers

/-! ## Projections of the trace -/

/-- The calls that change something for a pull request or in the store:
`UpdateRepository`, add-reviewer, `CreateThread` and the triggers. -/
def Call.isEffect : Call → Bool
  | .UpdateRepository _ _ => true
  | .CreatePullRequestReviewer _ _ _ => true
  | .CreateThread _ _ _ => true
  | .ReviewerTrigger _ _ _ => true
  | _ => false

def Call.isCreateThread : Call → Bool
  | .CreateThread _ _ _ => true
  | _ => false

def Call.isAddReviewer : Call → Bool
  | .CreatePullRequestReviewer _ _ _ => true
  | _ => false

def Call.isUpdateRepository : Call → Bool
  | .UpdateRepository _ _ => true
  | _ => false

def Call.isTrigger : Call → Bool
  | .ReviewerTrigger _ _ _ => true
  | _ => false

/-- The pull request a `GetThreads` call asks about. -/
def Call.threadFetch : Call → Option (String × Int)
  | .GetThreads repositoryId pullRequestId => some (repositoryId, pullRequestId)
  | _ => none

/-- The calls made between the machine `m` and the later machine `m1`. -/
def newCalls (m m1 : Machine σ) : List Call :=
  m1.trace.drop m.trace.length

/-- The add-reviewer calls for a list of reviewers, in list order. -/
def addCalls (pullRequestID : Int) (repoID : String) (reviewers : List Reviewer) : List Call :=
  reviewers.map (fun reviewer =>
    Call.CreatePullRequestReviewer reviewer.AdoID repoID pullRequestID)

/-! ## A concrete deployment, for evaluation -/

def defaultBotIdentifier : String := "b03f5f7f11d50a3a"

def alice : Reviewer := { Alias := "alice", AdoID := "id-alice" }

def bob : Reviewer := { Alias := "bob", AdoID := "id-bob" }

def carol : Reviewer := { Alias := "carol", AdoID := "id-carol" }

def demoRepo : Repository :=
  { ID := { Hex := "5d1f", String := "ObjectID(5d1f)" }
    Name := "service"
    ProjectName := "One"
    AdoRepoID := "repo-1"
    ReviewerGroups := [{ Group := "core", Owners := ["dave"], Reviewers := [alice, bob, carol] }] }

def pr42 : PullRequest :=
  { PullRequestId := 42
    Title := "Add retry to fetch"
    TargetRefName := "refs/heads/master"
    CreatedById := "dave"
    RepositoryId := "repo-1"
    Url := "https://example.test/pr/42" }

/-- A pull request of an author no reviewer group is responsible for. -/
def pr41 : PullRequest :=
  { PullRequestId := 41
    Title := "Tidy logging"
    TargetRefName := "refs/heads/master"
    CreatedById := "erin"
    RepositoryId := "repo-1"
    Url := "https://example.test/pr/41" }

/-- A deployment whose remote calls all succeed, except that the alias
`mallory` has no identity, the reviewer id `id-bad` is rejected, and only
`dave` has reviewers. -/
def demo : AutoReviewer Unit where
  filters := defaultFilters
  reviewerTriggers := [fun s _ _ => (.ok (), s)]
  botIdentifier := defaultBotIdentifier
  GetPullRequests s _ _ := (.ok [pr41, pr42], s)
  GetRepositories s _ := (.ok [{ Id := "repo-0", Name := "other" }, { Id := "repo-1", Name := "service" }], s)
  GetThreads s _ _ := (.ok (some []), s)
  CreateThread s _ _ _ := (.ok (), s)
  CreatePullRequestReviewer s reviewerId _ _ :=
    if reviewerId = "id-bad" then (.error "rejected", s) else (.ok (), s)
  GetDevOpsIdentity s reviewerAlias :=
    if reviewerAlias = "mallory" then (.error "identity not found", s)
    else (.ok ("id-" ++ reviewerAlias), s)
  UpdateRepository s _ _ := (.ok (), s)
  GetReviewers groups authorID :=
    if authorID = "dave" then (.ok ([alice, bob], [carol]), groups)
    else (.error "no reviewers for author", groups)

/-- A reviewer whose remote identity id the service rejects. -/
def zed : Reviewer := { Alias := "zed", AdoID := "id-bad" }

/-- One thread in which a comment without content (a deleted comment) comes
before the marker comment. -/
def deletedThenMarked : List CommentThread :=
  [{ Comments := some [{ Content := none },
                       { Content := some "CR Balancer\r\nb03f5f7f11d50a3a" }] }]

/-- The deployment `demo` at a pull request whose thread has a deleted comment
before the marker comment. -/
def demoDeleted : AutoReviewer Unit :=
  { demo with GetThreads := fun s _ _ => (.ok (some deletedThenMarked), s) }

/-- The deployment `demo` with a thread fetch that fails for pull request 41
only. -/
def demoThreadsDown : AutoReviewer Unit :=
  { demo with GetThreads := fun s _ pullRequestId =>
      if pullRequestId = 41 then (.error "timeout", s) else (.ok (some []), s) }

/-- The deployment `demo` with a repository store that rejects every update. -/
def demoStoreDown : AutoReviewer Unit :=
  { demo with UpdateRepository := fun s _ _ => (.error "store down", s) }

/-- The deployment `demo` with a pull request listing that is unreachable. -/
def demoListingDown : AutoReviewer Unit :=
  { demo with GetPullRequests := fun s _ _ => (.error "unreachable", s) }

/-- The pull requests `Run` does not filter out, as the thread fetches that
open their balancing: repository id and pull request id, in list order. -/
def unfilteredFetches (a : AutoReviewer σ) (pullRequests : List PullRequest) :
    List (String × Int) :=
  (pullRequests.filter (fun pr => !shouldFilter a pr)).map
    (fun pr => (pr.RepositoryId, pr.PullRequestId))

/-- Every guard check the batch of `Run` makes returns: none of them panics,
by a failed thread fetch or by a nil comment list or content. -/
def guardsReturn (a : AutoReviewer σ) : List PullRequest → Machine σ → Bool
  | [], _ => true
  | pr :: rest, m =>
    if shouldFilter a pr then guardsReturn a rest m
    else
      match (ContainsReviewBalancerComment a pr.RepositoryId pr.PullRequestId m).1 with
      | .panic _ => false
      | _ => guardsReturn a rest (balanceReview a pr m).2

/-- The remote state after the add-reviewer calls for a list of reviewers. -/
def remoteAfter (a : AutoReviewer σ) (pullRequestID : Int) (repoID : String) :
    List Reviewer → σ → σ
  | [], s => s
  | reviewer :: rest, s =>
    remoteAfter a pullRequestID repoID rest
      (a.CreatePullRequestReviewer s reviewer.AdoID repoID pullRequestID).2

/-- Every add-reviewer call for a list of reviewers, made one after the other
from the remote state `s`, succeeds. -/
def callsSucceed (a : AutoReviewer σ) (pullRequestID : Int) (repoID : String) :
    List Reviewer → σ → Prop
  | [], _ => True
  | reviewer :: rest, s =>
    (a.CreatePullRequestReviewer s reviewer.AdoID repoID pullRequestID).1 = .ok () ∧
    callsSucceed a pullRequestID repoID rest
      (a.CreatePullRequestReviewer s reviewer.AdoID repoID pullRequestID).2

/-- The repository `demoRepo` before any reviewer identity was resolved, with a
second reviewer whose alias the identity service does not know. -/
def unresolvedRepo : Repository :=
  { demoRepo with
    ReviewerGroups :=
      [{ Group := "core", Owners := ["dave"]
         Reviewers := [{ Alias := "alice", AdoID := "" }, { Alias := "mallory", AdoID := "" }] }] }

/-- The machine at start: nothing called yet. -/
def start {σ : Type} (remote : σ) (repo : Repository) : Machine σ :=
  { remote := remote, Repo := repo, trace := [] }

/-! ## Lemmas on the string functions -/

theorem hasPrefix_iff (s p : List Char) : hasPrefix s p = true ↔ p <+: s := by
  induction p generalizing s with
  | nil => simp [hasPrefix]
  | cons a ps ih =>
    cases s with
    | nil => simp [hasPrefix]
    | cons c s =>
      simp only [hasPrefix, Bool.and_eq_true, beq_iff_eq, ih, List.cons_prefix_cons]
      constructor
      · rintro ⟨h1, h2⟩; exact ⟨h1.symm, h2⟩
      · rintro ⟨h1, h2⟩; exact ⟨h1.symm, h2⟩

theorem indexFrom_iff (s p : List Char) : indexFrom s p = true ↔ p <:+: s := by
  induction s with
  | nil =>
    simp only [indexFrom, hasPrefix_iff]
    constructor
    · intro h; exact h.isInfix
    · intro h
      have := List.eq_nil_of_infix_nil h
      subst this; exact List.prefix_rfl
  | cons c s ih =>
    simp only [indexFrom, Bool.or_eq_true, hasPrefix_iff, ih]
    rw [List.infix_cons_iff]

theorem Contains_iff (s substr : String) :
    Contains s substr = true ↔ substr.data <:+: s.data := by
  simp [Contains, indexFrom_iff]

/-! ## Lemmas on case folding -/

theorem SimpleFold_upper (r : Nat) (h1 : 0x41 ≤ r) (h2 : r ≤ 0x5A) :
    SimpleFold r = r + 0x20 := by
  unfold SimpleFold; split_ifs <;> omega

theorem SimpleFold_lower (r : Nat) (h1 : 0x61 ≤ r) (h2 : r ≤ 0x7A) (h3 : r ≠ 0x6B)
    (h4 : r ≠ 0x73) : SimpleFold r = r - 0x20 := by
  unfold SimpleFold; split_ifs <;> omega

theorem SimpleFold_other (r : Nat) (h1 : ¬ (0x41 ≤ r ∧ r ≤ 0x5A)) (h2 : ¬ (0x61 ≤ r ∧ r ≤ 0x7A))
    (h3 : r ≠ 0x17F) (h4 : r ≠ 0x212A) : SimpleFold r = r := by
  unfold SimpleFold; split_ifs <;> omega

theorem foldLoop_step (sr tr n r : Nat) (h1 : r ≠ sr) (h2 : r < tr) :
    foldLoop sr tr (n + 1) r = foldLoop sr tr n (SimpleFold r) := by
  simp [foldLoop, h1, h2]

theorem foldLoop_stop (sr tr n r : Nat) (h : r = sr ∨ tr ≤ r) :
    foldLoop sr tr n r = r := by
  cases n with
  | zero => rfl
  | succ n =>
    have : ¬ (r ≠ sr ∧ r < tr) := by omega
    simp only [foldLoop, if_neg this]

theorem foldLoop_result (lo hi : Nat) (h : lo < hi) (hhi : 0x80 ≤ hi) :
    foldLoop lo hi 4 (SimpleFold lo) = hi ↔ foldKey lo = foldKey hi := by
  have key : foldKey lo = foldKey hi ↔
      (lo = 0x4B ∧ hi = 0x212A) ∨ (lo = 0x6B ∧ hi = 0x212A) ∨
      (lo = 0x53 ∧ hi = 0x17F) ∨ (lo = 0x73 ∧ hi = 0x17F) := by
    unfold foldKey; split_ifs <;> omega
  rw [key]
  by_cases a1 : lo = 0x4B
  · subst a1
    have e1 : SimpleFold 0x4B = 0x6B := by decide
    have e2 : SimpleFold 0x6B = 0x212A := by decide
    have e3 : SimpleFold 0x212A = 0x4B := by decide
    rw [e1, foldLoop_step _ _ _ _ (by omega) (by omega), e2]
    by_cases b : 0x212A < hi
    · rw [foldLoop_step _ _ _ _ (by omega) b, e3, foldLoop_stop _ _ _ _ (Or.inl rfl)]
      omega
    · rw [foldLoop_stop _ _ _ _ (Or.inr (by omega))]
      omega
  by_cases a2 : lo = 0x6B
  · subst a2
    have e2 : SimpleFold 0x6B = 0x212A := by decide
    have e3 : SimpleFold 0x212A = 0x4B := by decide
    have e1 : SimpleFold 0x4B = 0x6B := by decide
    rw [e2]
    by_cases b : 0x212A < hi
    · rw [foldLoop_step _ _ _ _ (by omega) b, e3, foldLoop_step _ _ _ _ (by omega) (by omega), e1,
        foldLoop_stop _ _ _ _ (Or.inl rfl)]
      omega
    · rw [foldLoop_stop _ _ _ _ (Or.inr (by omega))]
      omega
  by_cases a3 : lo = 0x53
  · subst a3
    have e1 : SimpleFold 0x53 = 0x73 := by decide
    have e2 : SimpleFold 0x73 = 0x17F := by decide
    have e3 : SimpleFold 0x17F = 0x53 := by decide
    rw [e1, foldLoop_step _ _ _ _ (by omega) (by omega), e2]
    by_cases b : 0x17F < hi
    · rw [foldLoop_step _ _ _ _ (by omega) b, e3, foldLoop_stop _ _ _ _ (Or.inl rfl)]
      omega
    · rw [foldLoop_stop _ _ _ _ (Or.inr (by omega))]
      omega
  by_cases a4 : lo = 0x73
  · subst a4
    have e2 : SimpleFold 0x73 = 0x17F := by decide
    have e3 : SimpleFold 0x17F = 0x53 := by decide
    have e1 : SimpleFold 0x53 = 0x73 := by decide
    rw [e2]
    by_cases b : 0x17F < hi
    · rw [foldLoop_step _ _ _ _ (by omega) b, e3, foldLoop_step _ _ _ _ (by omega) (by omega), e1,
        foldLoop_stop _ _ _ _ (Or.inl rfl)]
      omega
    · rw [foldLoop_stop _ _ _ _ (Or.inr (by omega))]
      omega
  by_cases a5 : lo = 0x17F
  · subst a5
    have e3 : SimpleFold 0x17F = 0x53 := by decide
    have e1 : SimpleFold 0x53 = 0x73 := by decide
    have e2 : SimpleFold 0x73 = 0x17F := by decide
    rw [e3, foldLoop_step _ _ _ _ (by omega) (by omega), e1,
      foldLoop_step _ _ _ _ (by omega) (by omega), e2, foldLoop_stop _ _ _ _ (Or.inl rfl)]
    omega
  by_cases a6 : lo = 0x212A
  · subst a6
    have e3 : SimpleFold 0x212A = 0x4B := by decide
    have e1 : SimpleFold 0x4B = 0x6B := by decide
    have e2 : SimpleFold 0x6B = 0x212A := by decide
    rw [e3, foldLoop_step _ _ _ _ (by omega) (by omega), e1,
      foldLoop_step _ _ _ _ (by omega) (by omega), e2, foldLoop_stop _ _ _ _ (Or.inl rfl)]
    omega
  by_cases a7 : 0x41 ≤ lo ∧ lo ≤ 0x5A
  · rw [SimpleFold_upper lo a7.1 a7.2, foldLoop_step _ _ _ _ (by omega) (by omega),
      SimpleFold_lower (lo + 0x20) (by omega) (by omega) (by omega) (by omega),
      foldLoop_stop _ _ _ _ (Or.inl (by omega))]
    omega
  by_cases a8 : 0x61 ≤ lo ∧ lo ≤ 0x7A
  · rw [SimpleFold_lower lo a8.1 a8.2 a2 a4, foldLoop_step _ _ _ _ (by omega) (by omega),
      SimpleFold_upper (lo - 0x20) (by omega) (by omega),
      foldLoop_stop _ _ _ _ (Or.inl (by omega))]
    omega
  · rw [SimpleFold_other lo a7 a8 a5 a6, foldLoop_stop _ _ _ _ (Or.inl rfl)]
    omega

theorem foldKey_ascii (lo hi : Nat) (h : lo < hi) (_hhi : hi < 0x80) :
    (0x41 ≤ lo ∧ lo ≤ 0x5A ∧ hi = lo + 0x20) ↔ foldKey lo = foldKey hi := by
  unfold foldKey; split_ifs <;> omega

theorem equalFoldRune_iff (sr tr : Nat) :
    equalFoldRune sr tr = true ↔ foldKey sr = foldKey tr := by
  unfold equalFoldRune
  by_cases h : tr = sr
  · simp [h]
  · rw [if_neg h]
    by_cases h2 : tr < sr
    · simp only [if_pos h2]
      by_cases h3 : sr < 0x80
      · rw [if_pos h3, decide_eq_true_iff, foldKey_ascii tr sr h2 h3]
        exact eq_comm
      · rw [if_neg h3, beq_iff_eq, foldLoop_result tr sr h2 (by omega)]
        exact eq_comm
    · simp only [if_neg h2]
      have h4 : sr < tr := by omega
      by_cases h3 : tr < 0x80
      · rw [if_pos h3, decide_eq_true_iff, foldKey_ascii sr tr h4 h3]
      · rw [if_neg h3, beq_iff_eq, foldLoop_result sr tr h4 (by omega)]

theorem equalFoldRunes_iff (s t : List Nat) :
    equalFoldRunes s t = true ↔ s.map foldKey = t.map foldKey := by
  induction s generalizing t with
  | nil => cases t <;> simp [equalFoldRunes]
  | cons a s ih =>
    cases t with
    | nil => simp [equalFoldRunes]
    | cons b t => simp [equalFoldRunes, ih, equalFoldRune_iff]

theorem EqualFold_iff (s t : String) : EqualFold s t = true ↔ caseInsensitiveEq s t := by
  simp only [EqualFold, caseInsensitiveEq, equalFoldRunes_iff]

theorem foldLoop_fuel (sr tr : Nat) (j n : Nat) (r : Nat) (h : SimpleFold^[j] r = sr) :
    foldLoop sr tr (j + n) r = foldLoop sr tr j r := by
  induction j generalizing r with
  | zero =>
    simp only [Function.iterate_zero, id_eq] at h
    rw [foldLoop_stop _ _ _ _ (Or.inl h), foldLoop_stop _ _ _ _ (Or.inl h)]
  | succ j ih =>
    have e : j + 1 + n = (j + n) + 1 := by omega
    rw [e]
    by_cases c : r ≠ sr ∧ r < tr
    · rw [foldLoop_step _ _ _ _ c.1 c.2, foldLoop_step _ _ _ _ c.1 c.2]
      exact ih _ (by simpa [Function.iterate_succ] using h)
    · rw [foldLoop_stop _ _ _ _ (by omega), foldLoop_stop _ _ _ _ (by omega)]

theorem SimpleFold_orbit (r : Nat) :
    SimpleFold r = r ∨ SimpleFold (SimpleFold r) = r ∨
      SimpleFold (SimpleFold (SimpleFold r)) = r := by
  by_cases a1 : r = 0x4B
  · subst a1; decide
  by_cases a2 : r = 0x6B
  · subst a2; decide
  by_cases a3 : r = 0x53
  · subst a3; decide
  by_cases a4 : r = 0x73
  · subst a4; decide
  by_cases a5 : r = 0x17F
  · subst a5; decide
  by_cases a6 : r = 0x212A
  · subst a6; decide
  by_cases a7 : 0x41 ≤ r ∧ r ≤ 0x5A
  · right; left
    rw [SimpleFold_upper r a7.1 a7.2,
      SimpleFold_lower (r + 0x20) (by omega) (by omega) (by omega) (by omega)]
    omega
  by_cases a8 : 0x61 ≤ r ∧ r ≤ 0x7A
  · right; left
    rw [SimpleFold_lower r a8.1 a8.2 a2 a4,
      SimpleFold_upper (r - 0x20) (by omega) (by omega)]
    omega
  · left; exact SimpleFold_other r a7 a8 a5 a6

/-- The orbit walk of `equalFoldRune` has left its loop within the four steps
it is given: more fuel never changes its result. -/
theorem foldLoop_exit (sr tr n : Nat) :
    foldLoop sr tr (4 + n) (SimpleFold sr) = foldLoop sr tr 4 (SimpleFold sr) := by
  have h4 : ∀ j, j ≤ 4 → SimpleFold^[j] (SimpleFold sr) = sr →
      foldLoop sr tr (4 + n) (SimpleFold sr) = foldLoop sr tr 4 (SimpleFold sr) := by
    intro j hj h
    have e1 : 4 + n = j + (4 - j + n) := by omega
    have e2 : 4 = j + (4 - j) := by omega
    rw [e1, foldLoop_fuel sr tr j _ _ h]
    conv_rhs => rw [e2, foldLoop_fuel sr tr j _ _ h]
  rcases SimpleFold_orbit sr with h | h | h
  · exact h4 0 (by omega) (by simpa using h)
  · exact h4 1 (by omega) (by simpa using h)
  · exact h4 2 (by omega) (by simpa using h)

theorem toNat_asciiLower (c : Char) : foldKey (asciiLower c).toNat = foldKey c.toNat := by
  unfold asciiLower
  by_cases h : 0x41 ≤ c.toNat ∧ c.toNat ≤ 0x5A
  · rw [if_pos h]
    have key : ∀ n : Fin 0x5B, (Char.ofNat (n.val + 0x20)).toNat = n.val + 0x20 := by decide
    have := key ⟨c.toNat, by omega⟩
    simp only at this
    rw [this]
    unfold foldKey; split_ifs <;> omega
  · rw [if_neg h]

/-! ## Lemmas on the filter chain -/

theorem shouldFilterList_eq_any (fs : List Filter) (pr : PullRequest) :
    shouldFilterList fs pr = fs.any (fun filter => filter pr) := by
  induction fs with
  | nil => rfl
  | cons f fs ih =>
    simp only [shouldFilterList, List.any_cons, ih]
    cases f pr <;> simp

theorem filterWIP_iff (pr : PullRequest) :
    filterWIP pr = true ↔ "WIP".data <:+: pr.Title.data := by
  unfold filterWIP
  rw [← Contains_iff]
  cases Contains pr.Title "WIP" <;> simp

theorem filterMasterBranchOnly_iff (pr : PullRequest) :
    filterMasterBranchOnly pr = true ↔
      ¬ caseInsensitiveEq pr.TargetRefName "refs/heads/master" := by
  unfold filterMasterBranchOnly
  rw [← EqualFold_iff]
  cases EqualFold pr.TargetRefName "refs/heads/master" <;> simp

/-! ## C3: the filter chain is a disjunction -/

/-- C3: `shouldFilter` is the logical OR of the registered filters at the pull
request: it is true exactly when some registered filter is true, so it is false
when no filter is registered and does not change when the filters are
reordered. -/
theorem shouldFilter_is_or (a : AutoReviewer σ) (pr : PullRequest) :
    shouldFilter a pr = a.filters.any (fun filter => filter pr) ∧
    (shouldFilter a pr = true ↔ ∃ filter ∈ a.filters, filter pr = true) ∧
    (a.filters = [] → shouldFilter a pr = false) ∧
    (∀ b : AutoReviewer σ, b.filters.Perm a.filters →
      shouldFilter b pr = shouldFilter a pr) := by
  refine ⟨shouldFilterList_eq_any _ _, ?_, ?_, ?_⟩
  · simp [shouldFilter, shouldFilterList_eq_any]
  · intro h
    simp [shouldFilter, h, shouldFilterList]
  · intro b hb
    have hmem : ∀ f, f ∈ b.filters ↔ f ∈ a.filters := fun f => hb.mem_iff
    have e : ∀ fs : List Filter, (shouldFilterList fs pr = true ↔ ∃ f ∈ fs, f pr = true) := by
      intro fs; simp [shouldFilterList_eq_any]
    have : shouldFilterList b.filters pr = true ↔ shouldFilterList a.filters pr = true := by
      rw [e, e]
      constructor
      · rintro ⟨f, hf, h⟩; exact ⟨f, (hmem f).1 hf, h⟩
      · rintro ⟨f, hf, h⟩; exact ⟨f, (hmem f).2 hf, h⟩
    unfold shouldFilter
    cases h1 : shouldFilterList b.filters pr <;> cases h2 : shouldFilterList a.filters pr <;>
      simp_all

/-- C3 at the baseline deployment with its two filters swapped: the WIP title
is still filtered. -/
theorem shouldFilter_is_or_witness :
    shouldFilter demo { pr42 with Title := "WIP: retry" } = true ∧
    shouldFilter { demo with filters := [filterMasterBranchOnly, filterWIP] }
        { pr42 with Title := "WIP: retry" } =
      shouldFilter demo { pr42 with Title := "WIP: retry" } :=
  ⟨by decide,
    (shouldFilter_is_or demo { pr42 with Title := "WIP: retry" }).2.2.2
      { demo with filters := [filterMasterBranchOnly, filterWIP] }
      (List.Perm.swap filterWIP filterMasterBranchOnly [])⟩

/-! ## C4: the two baseline filters -/

/-- C4: with the two baseline filters registered, `filterWIP` is true exactly
when the title has `WIP` as a (case-sensitive) substring, `filterMasterBranchOnly`
is true exactly when the target ref is not equal to `refs/heads/master` ignoring
case, the pull request is excluded exactly when one of the two holds, and for a
target ref that is `refs/heads/master` in any casing the branch filter is
false. -/
theorem baseline_filters (a : AutoReviewer σ) (pr : PullRequest)
    (h : a.filters = defaultFilters) :
    (filterWIP pr = true ↔ "WIP".data <:+: pr.Title.data) ∧
    (filterMasterBranchOnly pr = true ↔
      ¬ caseInsensitiveEq pr.TargetRefName "refs/heads/master") ∧
    (shouldFilter a pr = true ↔
      ("WIP".data <:+: pr.Title.data ∨
        ¬ caseInsensitiveEq pr.TargetRefName "refs/heads/master")) ∧
    (pr.TargetRefName.data.map asciiLower = "refs/heads/master".data →
      filterMasterBranchOnly pr = false) := by
  refine ⟨filterWIP_iff pr, filterMasterBranchOnly_iff pr, ?_, ?_⟩
  · rw [← filterWIP_iff, ← filterMasterBranchOnly_iff]
    simp only [shouldFilter, h, defaultFilters, shouldFilterList]
    cases filterWIP pr <;> cases filterMasterBranchOnly pr <;> simp
  · intro hl
    have hc : caseInsensitiveEq pr.TargetRefName "refs/heads/master" := by
      unfold caseInsensitiveEq
      have e : ∀ l : List Char, (l.map Char.toNat).map foldKey =
          ((l.map asciiLower).map Char.toNat).map foldKey := by
        intro l
        simp only [List.map_map]
        apply List.map_congr_left
        intro c _
        simp [toNat_asciiLower]
      rw [e pr.TargetRefName.data, hl]
    have := (filterMasterBranchOnly_iff pr).not.2 (not_not.2 hc)
    simpa using this

/-- C4 at a pull request that targets `Refs/Heads/MASTER`. -/
theorem baseline_filters_witness :
    demo.filters = defaultFilters ∧
    filterMasterBranchOnly { pr42 with TargetRefName := "Refs/Heads/MASTER" } = false :=
  ⟨rfl, (baseline_filters demo { pr42 with TargetRefName := "Refs/Heads/MASTER" } rfl).2.2.2
    (by decide)⟩

/-! ## C5: the WIP filter is case-sensitive -/

/-- C5 fails as stated: a mainline pull request titled `wip` passes the
baseline filters. -/
theorem lowercase_wip_not_filtered :
    shouldFilter demo { pr42 with Title := "wip" } = false := by decide

/-- C5, amended: a pull request whose title contains the exact upper-case
letters `WIP` is filtered by the baseline filters, whatever its target ref. -/
theorem uppercase_wip_filtered (a : AutoReviewer σ) (pr : PullRequest)
    (h : a.filters = defaultFilters) (hw : "WIP".data <:+: pr.Title.data) :
    shouldFilter a pr = true := by
  have := (filterWIP_iff pr).2 hw
  simp [shouldFilter, h, defaultFilters, shouldFilterList, this]

/-- C5, amended, at the title `Draft WIP parser` on a feature branch target. -/
theorem uppercase_wip_filtered_witness :
    shouldFilter demo
      { pr42 with Title := "Draft WIP parser", TargetRefName := "refs/heads/feature" } = true :=
  uppercase_wip_filtered demo
    { pr42 with Title := "Draft WIP parser", TargetRefName := "refs/heads/feature" } rfl
    (by decide)


/-! ## Lemmas on the guard, the reviewer registration and the comment -/

theorem newCalls_append (m m1 : Machine σ) (new : List Call)
    (h : m1.trace = m.trace ++ new) : newCalls m m1 = new := by
  simp [newCalls, h]

theorem commentsContain_present (bot : String) (comments : List Comment)
    (h : ∀ comment ∈ comments, comment.Content ≠ none) :
    ∃ b, commentsContain bot comments = .ok b ∧
      (b = true ↔ ∃ comment ∈ comments, ∃ content, comment.Content = some content ∧
        bot.data <:+: content.data) := by
  induction comments with
  | nil => exact ⟨false, rfl, by simp⟩
  | cons c cs ih =>
    obtain ⟨b, hb, hiff⟩ := ih (fun x hx => h x (List.mem_cons_of_mem _ hx))
    rcases hc : c.Content with _ | content
    · exact absurd hc (h c (List.mem_cons_self _ _))
    · by_cases hcon : Contains content bot = true
      · refine ⟨true, by simp [commentsContain, hc, hcon], ?_⟩
        simp only [true_iff]
        exact ⟨c, List.mem_cons_self _ _, content, hc, (Contains_iff _ _).1 hcon⟩
      · refine ⟨b, by simp [commentsContain, hc, hcon, hb], ?_⟩
        rw [hiff]
        constructor
        · rintro ⟨x, hx, y, hy, hz⟩
          exact ⟨x, List.mem_cons_of_mem _ hx, y, hy, hz⟩
        · rintro ⟨x, hx, y, hy, hz⟩
          rcases List.mem_cons.1 hx with rfl | hx
          · rw [hc] at hy
            cases hy
            exact absurd ((Contains_iff _ _).2 hz) hcon
          · exact ⟨x, hx, y, hy, hz⟩

/-- On threads that all have a comment list, whose comments all have a
content, the scan returns, and it returns true exactly when some comment
contains the bot identifier. -/
theorem threadsContain_present (bot : String) (threads : List CommentThread)
    (h : ∀ thread ∈ threads, ∃ comments, thread.Comments = some comments ∧
      ∀ comment ∈ comments, comment.Content ≠ none) :
    ∃ b, threadsContain bot threads = .ok b ∧
      (b = true ↔ ∃ thread ∈ threads, ∃ comments, thread.Comments = some comments ∧
        ∃ comment ∈ comments, ∃ content, comment.Content = some content ∧
          bot.data <:+: content.data) := by
  induction threads with
  | nil => exact ⟨false, rfl, by simp⟩
  | cons t ts ih =>
    obtain ⟨b, hb, hiff⟩ := ih (fun x hx => h x (List.mem_cons_of_mem _ hx))
    obtain ⟨comments, hcs, hpresent⟩ := h t (List.mem_cons_self _ _)
    obtain ⟨bc, hbc, hciff⟩ := commentsContain_present bot comments hpresent
    cases bc
    · refine ⟨b, by simp [threadsContain, hcs, hbc, hb], ?_⟩
      rw [hiff]
      constructor
      · rintro ⟨x, hx, y⟩
        exact ⟨x, List.mem_cons_of_mem _ hx, y⟩
      · rintro ⟨x, hx, cs, hxc, y⟩
        rcases List.mem_cons.1 hx with rfl | hx
        · rw [hcs] at hxc
          cases hxc
          have := hciff.2 y
          simp at this
        · exact ⟨x, hx, cs, hxc, y⟩
    · refine ⟨true, by simp [threadsContain, hcs, hbc], ?_⟩
      simp only [true_iff]
      exact ⟨t, List.mem_cons_self _ _, comments, hcs, hciff.1 rfl⟩

theorem guard_machine (a : AutoReviewer σ) (repositoryID : String) (pullRequestID : Int)
    (m : Machine σ) :
    (ContainsReviewBalancerComment a repositoryID pullRequestID m).2 =
      { m with remote := (a.GetThreads m.remote repositoryID pullRequestID).2
               trace := m.trace ++ [Call.GetThreads repositoryID pullRequestID] } := by
  unfold ContainsReviewBalancerComment
  rcases h : (a.GetThreads m.remote repositoryID pullRequestID).1 with e | (_ | ts) <;>
    simp [h]

theorem addReviewersLoop_spec (a : AutoReviewer σ) (pullRequestID : Int) (repoID : String)
    (reviewers : List Reviewer) (m : Machine σ) :
    (addReviewersLoop a pullRequestID repoID reviewers m).2.Repo = m.Repo ∧
    (((addReviewersLoop a pullRequestID repoID reviewers m).1 = .ok () ∧
      (addReviewersLoop a pullRequestID repoID reviewers m).2.trace =
        m.trace ++ addCalls pullRequestID repoID reviewers) ∨
     (∃ pre r post err, reviewers = pre ++ r :: post ∧
        (addReviewersLoop a pullRequestID repoID pre m).1 = .ok () ∧
        (a.CreatePullRequestReviewer (addReviewersLoop a pullRequestID repoID pre m).2.remote
          r.AdoID repoID pullRequestID).1 = .error err ∧
        (addReviewersLoop a pullRequestID repoID reviewers m).1 =
          .error ("failed to add reviewer " ++ r.Alias ++ " with error " ++ err) ∧
        (addReviewersLoop a pullRequestID repoID reviewers m).2.trace =
          m.trace ++ addCalls pullRequestID repoID (pre ++ [r]))) := by
  induction reviewers generalizing m with
  | nil => simp [addReviewersLoop, addCalls]
  | cons rv rest ih =>
    rcases h : (a.CreatePullRequestReviewer m.remote rv.AdoID repoID pullRequestID).1 with e | u
    · refine ⟨by simp [addReviewersLoop, h], Or.inr ⟨[], rv, rest, e, rfl, rfl, ?_, ?_, ?_⟩⟩
      · simpa [addReviewersLoop] using h
      · simp [addReviewersLoop, h]
      · simp [addReviewersLoop, h, addCalls]
    · have step : ∀ l, addReviewersLoop a pullRequestID repoID (rv :: l) m =
          addReviewersLoop a pullRequestID repoID l
            { m with remote := (a.CreatePullRequestReviewer m.remote rv.AdoID repoID
                        pullRequestID).2
                     trace := m.trace ++
                        [Call.CreatePullRequestReviewer rv.AdoID repoID pullRequestID] } := by
        intro l; simp [addReviewersLoop, h]
      rw [step]
      rcases ih { m with remote := (a.CreatePullRequestReviewer m.remote rv.AdoID repoID
                        pullRequestID).2
                         trace := m.trace ++
                        [Call.CreatePullRequestReviewer rv.AdoID repoID pullRequestID] }
        with ⟨hr, hok | ⟨pre, r, post, err, e1, e2, e3, e4, e5⟩⟩
      · exact ⟨hr, Or.inl ⟨hok.1, by simp [hok.2, addCalls]⟩⟩
      · refine ⟨hr, Or.inr ⟨rv :: pre, r, post, err, by simp [e1], ?_, ?_, e4, ?_⟩⟩
        · rw [step]; exact e2
        · rw [step]; exact e3
        · simp [e5, addCalls]

theorem addReviewersLoop_ne_panic (a : AutoReviewer σ) (pullRequestID : Int) (repoID : String)
    (reviewers : List Reviewer) (m : Machine σ) (err : String) :
    (addReviewersLoop a pullRequestID repoID reviewers m).1 ≠ .panic err := by
  rcases (addReviewersLoop_spec a pullRequestID repoID reviewers m).2 with h | ⟨_, _, _, _, _, _, _, h, _⟩
  · rw [h.1]; simp
  · rw [h]; simp

theorem infix_append_left (x s t : List Char) (h : x <:+: s) : x <:+: s ++ t := by
  obtain ⟨p, q, e⟩ := h
  exact ⟨p, q ++ t, by simp [← e]⟩

theorem infix_append_right (x s t : List Char) (h : x <:+: t) : x <:+: s ++ t := by
  obtain ⟨p, q, e⟩ := h
  exact ⟨s ++ p, q, by simp [← e]⟩

theorem setAliases_eq (reviewers : List Reviewer) (done : List String) (pad : List String)
    (h : pad.length = reviewers.length) :
    setAliases reviewers done.length (done ++ pad) =
      done ++ reviewers.map (fun reviewer => reviewer.Alias) := by
  induction reviewers generalizing done pad with
  | nil =>
    have : pad = [] := List.length_eq_zero.1 (by simpa using h)
    simp [setAliases, this]
  | cons r rest ih =>
    cases pad with
    | nil => simp at h
    | cons p pad =>
      have e : (done ++ p :: pad).set done.length r.Alias = (done ++ [r.Alias]) ++ pad := by
        simp [List.set_append]
      have l : done.length + 1 = (done ++ [r.Alias]).length := by simp
      simp only [setAliases, e]
      rw [l, ih (done ++ [r.Alias]) pad (by simpa using h)]
      simp

theorem GetReviewersAlias_eq_map (reviewers : List Reviewer) :
    GetReviewersAlias reviewers = reviewers.map (fun reviewer => reviewer.Alias) := by
  have := setAliases_eq reviewers [] (List.replicate reviewers.length "") (by simp)
  simpa [GetReviewersAlias] using this

theorem Join_foldl (rest : List String) (acc sep : String) :
    (rest.foldl (fun acc s => acc ++ sep ++ s) acc).data =
      acc.data ++ (rest.map (fun s => sep.data ++ s.data)).flatten := by
  induction rest generalizing acc with
  | nil => simp
  | cons b rest ih => simp [ih, String.data_append]

theorem flatten_sep_prefix (sep b : List Char) (rest : List (List Char)) :
    ((b :: rest).map (fun s => sep ++ s)).flatten =
      sep ++ (List.intersperse sep (b :: rest)).flatten := by
  induction rest generalizing b with
  | nil => simp
  | cons c rest ih =>
    have := ih c
    simp only [List.map_cons, List.flatten_cons, List.intersperse, List.append_assoc] at this ⊢
    rw [this]

/-- The text of `Join`: the elements in list order with the separator between
neighbours. -/
theorem Join_data (elems : List String) (sep : String) :
    (Join elems sep).data = List.intercalate sep.data (elems.map String.data) := by
  match elems with
  | [] => simp [Join, List.intercalate]
  | [a] => simp [Join, List.intercalate]
  | a :: b :: rest =>
    have e : (b :: rest).map (fun s => sep.data ++ s.data) =
        ((b.data :: rest.map String.data)).map (fun s => sep.data ++ s) := by
      simp
    simp only [Join, Join_foldl, e, flatten_sep_prefix]
    simp [List.intercalate, List.intersperse]

theorem addCalls_isAddReviewer (pullRequestID : Int) (repoID : String)
    (reviewers : List Reviewer) :
    ∀ c ∈ addCalls pullRequestID repoID reviewers, c.isAddReviewer = true := by
  intro c hc
  simp only [addCalls, List.mem_map] at hc
  obtain ⟨rv, _, rfl⟩ := hc
  rfl

theorem runTriggers_trace (requiredReviewers : List Reviewer) (url : String)
    (triggers : List (ReviewerTrigger σ)) (index : Nat) (m : Machine σ) :
    (runTriggers requiredReviewers url triggers index m).Repo = m.Repo ∧
    ∃ trig, (runTriggers requiredReviewers url triggers index m).trace = m.trace ++ trig ∧
      trig.length = triggers.length ∧
      ∀ c ∈ trig, ∃ i, c = Call.ReviewerTrigger i requiredReviewers url := by
  induction triggers generalizing index m with
  | nil => exact ⟨rfl, [], by simp [runTriggers]⟩
  | cons t ts ih =>
    obtain ⟨hr, trig, h1, h2, h3⟩ := ih (index + 1)
      { m with remote := (t m.remote requiredReviewers url).2
               trace := m.trace ++ [Call.ReviewerTrigger index requiredReviewers url] }
    refine ⟨by simpa [runTriggers] using hr,
      Call.ReviewerTrigger index requiredReviewers url :: trig, ?_, by simp [h2], ?_⟩
    · simp only [runTriggers, h1]; simp
    · intro c hc
      rcases List.mem_cons.1 hc with e | e
      · exact ⟨index, e⟩
      · exact h3 c e

/-- The calls one run of `balanceReview` makes: the thread fetch, then at most
one `UpdateRepository`, then add-reviewer calls, then at most one
`CreateThread` (carrying the comment for the selected required reviewers), then
the triggers. -/
theorem balanceReview_trace (a : AutoReviewer σ) (pr : PullRequest) (m : Machine σ) :
    ∃ upd adds thr trig : List Call,
      (balanceReview a pr m).2.trace =
        m.trace ++ Call.GetThreads pr.RepositoryId pr.PullRequestId ::
          (upd ++ adds ++ thr ++ trig) ∧
      (∀ c ∈ upd, c.isUpdateRepository = true) ∧ upd.length ≤ 1 ∧
      (∀ c ∈ adds, c.isAddReviewer = true) ∧
      (thr = [] ∨ ∃ required optional,
        (a.GetReviewers m.Repo.ReviewerGroups pr.CreatedById).1 = .ok (required, optional) ∧
        thr = [Call.CreateThread pr.RepositoryId pr.PullRequestId
          (balancerComment required a.botIdentifier)]) ∧
      (∀ c ∈ trig, ∃ i rs url, c = Call.ReviewerTrigger i rs url) := by
  have hG := guard_machine a pr.RepositoryId pr.PullRequestId m
  unfold balanceReview
  rcases hg : ContainsReviewBalancerComment a pr.RepositoryId pr.PullRequestId m with ⟨g, mG⟩
  rw [hg] at hG
  simp only at hG
  have base : ∀ (Q : List Call → Prop) (m1 : Machine σ), m1.trace = mG.trace →
      ∃ upd adds thr trig : List Call,
      m1.trace = m.trace ++ Call.GetThreads pr.RepositoryId pr.PullRequestId ::
          (upd ++ adds ++ thr ++ trig) ∧
      (∀ c ∈ upd, c.isUpdateRepository = true) ∧ upd.length ≤ 1 ∧
      (∀ c ∈ adds, c.isAddReviewer = true) ∧
      (thr = [] ∨ Q thr) ∧
      (∀ c ∈ trig, ∃ i rs url, c = Call.ReviewerTrigger i rs url) := by
    intro Q m1 h1
    exact ⟨[], [], [], [], by simp [h1, hG], by simp, by simp, by simp, Or.inl rfl, by simp⟩
  rcases g with b | e | e
  · cases b
    · -- the guard reports false
      have hrepo : mG.Repo = m.Repo := by rw [hG]
      simp only [hrepo]
      rcases hs : (a.GetReviewers m.Repo.ReviewerGroups pr.CreatedById).1 with e | ⟨required, optional⟩
      · simp only
        exact base _ _ rfl
      · simp only [updateRepository]
        set mS : Machine σ := { mG with Repo := { m.Repo with
          ReviewerGroups := (a.GetReviewers m.Repo.ReviewerGroups pr.CreatedById).2 } } with hmS
        set U := Call.UpdateRepository mS.Repo.ID.Hex mS.Repo with hU
        rcases hu : (a.UpdateRepository mS.remote mS.Repo.ID.Hex mS.Repo).1 with e | u
        · simp only
          exact ⟨[U], [], [], [], by simp [hG, hmS], by simp [hU, Call.isUpdateRepository],
            by simp, by simp, Or.inl rfl, by simp⟩
        · simp only [AddReviewers]
          set mU : Machine σ := { mS with
            remote := (a.UpdateRepository mS.remote mS.Repo.ID.Hex mS.Repo).2
            trace := mS.trace ++ [U] } with hmU
          have hadd := addReviewersLoop_spec a pr.PullRequestId pr.RepositoryId
            (required ++ optional) mU
          have hnp := addReviewersLoop_ne_panic a pr.PullRequestId pr.RepositoryId
            (required ++ optional) mU
          rcases hA : addReviewersLoop a pr.PullRequestId pr.RepositoryId
            (required ++ optional) mU with ⟨rA, mA⟩
          rw [hA] at hadd hnp
          simp only at hadd hnp
          have htr : ∃ adds, mA.trace = m.trace ++
              Call.GetThreads pr.RepositoryId pr.PullRequestId :: ([U] ++ adds) ∧
              ∀ c ∈ adds, c.isAddReviewer = true := by
            rcases hadd.2 with h | ⟨pre, r, post, err, _, _, _, _, h⟩
            · exact ⟨addCalls pr.PullRequestId pr.RepositoryId (required ++ optional),
                by simp [h.2, hG], addCalls_isAddReviewer _ _ _⟩
            · exact ⟨addCalls pr.PullRequestId pr.RepositoryId (pre ++ [r]),
                by simp [h, hG], addCalls_isAddReviewer _ _ _⟩
          obtain ⟨adds, hadds, haddsP⟩ := htr
          rcases rA with u | e | e
          · simp only [createThread]
            set T := Call.CreateThread pr.RepositoryId pr.PullRequestId
              (balancerComment required a.botIdentifier) with hT
            rcases hc : (a.CreateThread mA.remote pr.RepositoryId pr.PullRequestId
              (balancerComment required a.botIdentifier)).1 with e | u
            · simp only
              exact ⟨[U], adds, [T], [], by simp [hadds],
                by simp [hU, Call.isUpdateRepository], by simp, haddsP,
                Or.inr ⟨required, optional, rfl, rfl⟩, by simp⟩
            · simp only
              obtain ⟨_, trig, h1, _, h3⟩ := runTriggers_trace required pr.Url
                a.reviewerTriggers 0
                { mA with remote := (a.CreateThread mA.remote pr.RepositoryId pr.PullRequestId
                    (balancerComment required a.botIdentifier)).2
                          trace := mA.trace ++ [T] }
              refine ⟨[U], adds, [T], trig, ?_, by simp [hU, Call.isUpdateRepository],
                by simp, haddsP, Or.inr ⟨required, optional, rfl, rfl⟩, ?_⟩
              · rw [h1]; simp [hadds]
              · intro c hcm
                obtain ⟨i, hi⟩ := h3 c hcm
                exact ⟨i, _, _, hi⟩
          · simp only
            exact ⟨[U], adds, [], [], by simp [hadds],
              by simp [hU, Call.isUpdateRepository], by simp, haddsP, Or.inl rfl, by simp⟩
          · exact absurd rfl (hnp e)
    · exact base _ _ rfl
  · exact base _ _ rfl
  · exact base _ _ rfl

/-! ## C1: the idempotency guard -/

/-- C1 fails on the code: the thread fetch succeeds and returns one thread in
which a comment without content comes before a comment that contains the bot
identifier; `ContainsReviewBalancerComment` does not return true, it panics on
the nil content. -/
theorem guard_panics_on_deleted_comment :
    (demoDeleted.GetThreads () "repo-1" 42).1 = .ok (some deletedThenMarked) ∧
    (∃ thread ∈ deletedThenMarked, ∃ comments, thread.Comments = some comments ∧
      ∃ comment ∈ comments, ∃ content, comment.Content = some content ∧
        demoDeleted.botIdentifier.data <:+: content.data) ∧
    (ContainsReviewBalancerComment demoDeleted "repo-1" 42 (start () demoRepo)).1 =
      .panic nilDereference := by
  refine ⟨rfl, ?_, by decide⟩
  exact ⟨_, List.mem_cons_self _ _, _, rfl, _, List.mem_cons_of_mem _ (List.mem_cons_self _ _),
    _, rfl, by decide⟩

/-! ## C6: registering the reviewers -/

theorem addReviewersLoop_prefix (a : AutoReviewer σ) (pullRequestID : Int) (repoID : String)
    (pre rest : List Reviewer) (m : Machine σ)
    (h : callsSucceed a pullRequestID repoID pre m.remote) :
    addReviewersLoop a pullRequestID repoID (pre ++ rest) m =
      addReviewersLoop a pullRequestID repoID rest
        { m with remote := remoteAfter a pullRequestID repoID pre m.remote
                 trace := m.trace ++ addCalls pullRequestID repoID pre } := by
  induction pre generalizing m with
  | nil => simp [remoteAfter, addCalls]
  | cons rv pre ih =>
    obtain ⟨h1, h2⟩ := h
    have step : addReviewersLoop a pullRequestID repoID (rv :: pre ++ rest) m =
        addReviewersLoop a pullRequestID repoID (pre ++ rest)
          { m with remote := (a.CreatePullRequestReviewer m.remote rv.AdoID repoID
                      pullRequestID).2
                   trace := m.trace ++
                      [Call.CreatePullRequestReviewer rv.AdoID repoID pullRequestID] } := by
      simp [addReviewersLoop, h1]
    rw [step, ih _ h2]
    simp [remoteAfter, addCalls]

/-- C6: `AddReviewers` calls the remote add-reviewer operation for the required
reviewers and then the optional ones, in list order, with each reviewer's
`AdoID`.  If every call succeeds it returns success after exactly
`len(required) + len(optional)` calls.  If the calls for the reviewers before
some reviewer `r` succeed and the call for `r` fails, the calls made are those
up to and including the one for `r` and no further one, and the error returned
names the alias of `r`. -/
theorem AddReviewers_calls (a : AutoReviewer σ) (pullRequestID : Int) (repoID : String)
    (required optional : List Reviewer) (m : Machine σ) :
    (callsSucceed a pullRequestID repoID (required ++ optional) m.remote →
      (AddReviewers a pullRequestID repoID required optional m).1 = .ok () ∧
      newCalls m (AddReviewers a pullRequestID repoID required optional m).2 =
        addCalls pullRequestID repoID (required ++ optional) ∧
      (newCalls m (AddReviewers a pullRequestID repoID required optional m).2).length =
        required.length + optional.length) ∧
    (∀ pre r post err, required ++ optional = pre ++ r :: post →
      callsSucceed a pullRequestID repoID pre m.remote →
      (a.CreatePullRequestReviewer (remoteAfter a pullRequestID repoID pre m.remote)
        r.AdoID repoID pullRequestID).1 = .error err →
      (AddReviewers a pullRequestID repoID required optional m).1 =
        .error ("failed to add reviewer " ++ r.Alias ++ " with error " ++ err) ∧
      r.Alias.data <:+: ("failed to add reviewer " ++ r.Alias ++ " with error " ++ err).data ∧
      newCalls m (AddReviewers a pullRequestID repoID required optional m).2 =
        addCalls pullRequestID repoID (pre ++ [r])) := by
  constructor
  · intro h
    have e := addReviewersLoop_prefix a pullRequestID repoID (required ++ optional) [] m h
    rw [List.append_nil] at e
    have ht : (AddReviewers a pullRequestID repoID required optional m).2.trace =
        m.trace ++ addCalls pullRequestID repoID (required ++ optional) := by
      simp [AddReviewers, e, addReviewersLoop]
    have hn := newCalls_append m _ _ ht
    refine ⟨by simp [AddReviewers, e, addReviewersLoop], hn, ?_⟩
    rw [hn]
    simp [addCalls]
  · intro pre r post err hsplit hpre hfail
    have e := addReviewersLoop_prefix a pullRequestID repoID pre (r :: post) m hpre
    have e2 : AddReviewers a pullRequestID repoID required optional m =
        (.error ("failed to add reviewer " ++ r.Alias ++ " with error " ++ err),
          { m with remote := (a.CreatePullRequestReviewer
                      (remoteAfter a pullRequestID repoID pre m.remote) r.AdoID repoID
                      pullRequestID).2
                   trace := m.trace ++ addCalls pullRequestID repoID pre ++
                      [Call.CreatePullRequestReviewer r.AdoID repoID pullRequestID] }) := by
      simp only [AddReviewers, hsplit, e, addReviewersLoop, hfail]
    have ht : (AddReviewers a pullRequestID repoID required optional m).2.trace =
        m.trace ++ addCalls pullRequestID repoID (pre ++ [r]) := by
      rw [e2]; simp [addCalls]
    refine ⟨by rw [e2], ?_, newCalls_append m _ _ ht⟩
    simp only [String.data_append]
    exact infix_append_left _ _ _ (infix_append_left _ _ _ (infix_append_right _ _ _
      (List.infix_refl _)))

/-- C6 at a required reviewer whose id the remote rejects: the call for `alice`
succeeds, the call for `zed` fails, the one for `carol` is not made, and the
error names `zed`; with `bob` in the place of `zed` all three calls are made. -/
theorem AddReviewers_calls_witness :
    (callsSucceed demo 42 "repo-1" [alice] (start () demoRepo).remote ∧
      (demo.CreatePullRequestReviewer
        (remoteAfter demo 42 "repo-1" [alice] (start () demoRepo).remote)
        zed.AdoID "repo-1" 42).1 = .error "rejected" ∧
      (AddReviewers demo 42 "repo-1" [alice, zed] [carol] (start () demoRepo)).1 =
        .error ("failed to add reviewer " ++ zed.Alias ++ " with error " ++ "rejected") ∧
      newCalls (start () demoRepo)
          (AddReviewers demo 42 "repo-1" [alice, zed] [carol] (start () demoRepo)).2 =
        addCalls 42 "repo-1" ([alice] ++ [zed])) ∧
    (callsSucceed demo 42 "repo-1" ([alice, bob] ++ [carol]) (start () demoRepo).remote ∧
      (AddReviewers demo 42 "repo-1" [alice, bob] [carol] (start () demoRepo)).1 = .ok () ∧
      (newCalls (start () demoRepo)
          (AddReviewers demo 42 "repo-1" [alice, bob] [carol] (start () demoRepo)).2).length =
        [alice, bob].length + [carol].length) :=
  ⟨⟨⟨rfl, trivial⟩, rfl,
      ((AddReviewers_calls demo 42 "repo-1" [alice, zed] [carol] (start () demoRepo)).2
        [alice] zed [carol] "rejected" rfl ⟨rfl, trivial⟩ rfl).1,
      ((AddReviewers_calls demo 42 "repo-1" [alice, zed] [carol] (start () demoRepo)).2
        [alice] zed [carol] "rejected" rfl ⟨rfl, trivial⟩ rfl).2.2⟩,
    ⟨⟨rfl, rfl, rfl, trivial⟩,
      ((AddReviewers_calls demo 42 "repo-1" [alice, bob] [carol] (start () demoRepo)).1
        ⟨rfl, rfl, rfl, trivial⟩).1,
      ((AddReviewers_calls demo 42 "repo-1" [alice, bob] [carol] (start () demoRepo)).1
        ⟨rfl, rfl, rfl, trivial⟩).2.2⟩⟩

/-! ## C7: the root comment -/

/-- C7: `GetReviewersAlias` returns the alias of every reviewer, one per
reviewer and in list order; the comment `balanceReview` posts (every
`CreateThread` call it makes carries this text, for the required reviewers the
selection returned) contains those aliases joined by `,` in list order, and
contains the bot identifier. -/
theorem comment_names_required (a : AutoReviewer σ) (pr : PullRequest) (m : Machine σ) :
    (∀ reviewers : List Reviewer,
      GetReviewersAlias reviewers = reviewers.map (fun reviewer => reviewer.Alias)) ∧
    (∀ c ∈ newCalls m (balanceReview a pr m).2, c.isCreateThread = true →
      ∃ required optional,
        (a.GetReviewers m.Repo.ReviewerGroups pr.CreatedById).1 = .ok (required, optional) ∧
        c = Call.CreateThread pr.RepositoryId pr.PullRequestId
          (balancerComment required a.botIdentifier)) ∧
    (∀ required : List Reviewer,
      (Join (GetReviewersAlias required) ",").data =
        List.intercalate ",".data (required.map (fun reviewer => reviewer.Alias.data)) ∧
      (Join (GetReviewersAlias required) ",").data <:+:
        (balancerComment required a.botIdentifier).data ∧
      a.botIdentifier.data <:+: (balancerComment required a.botIdentifier).data) ∧
    "alice,bob".data <:+: (balancerComment [alice, bob] a.botIdentifier).data := by
  have hjoin : ∀ required : List Reviewer, (Join (GetReviewersAlias required) ",").data <:+:
        (balancerComment required a.botIdentifier).data := by
    intro required
    simp only [balancerComment, String.data_append]
    iterate 6 apply infix_append_left
    exact infix_append_right _ _ _ (List.infix_refl _)
  refine ⟨GetReviewersAlias_eq_map, ?_, ?_, ?_⟩
  · intro c hc hct
    obtain ⟨upd, adds, thr, trig, ht, hupd, _, hadds, hthr, htrig⟩ := balanceReview_trace a pr m
    rw [newCalls_append m _ _ ht] at hc
    simp only [List.mem_cons, List.mem_append] at hc
    rcases hc with rfl | ((((hc | hc) | hc) | hc))
    · simp [Call.isCreateThread] at hct
    · have := hupd c hc
      cases c <;> simp_all [Call.isCreateThread, Call.isUpdateRepository]
    · have := hadds c hc
      cases c <;> simp_all [Call.isCreateThread, Call.isAddReviewer]
    · rcases hthr with rfl | ⟨required, optional, hs, rfl⟩
      · simp at hc
      · exact ⟨required, optional, hs, by simpa using hc⟩
    · obtain ⟨i, rs, url, rfl⟩ := htrig c hc
      simp [Call.isCreateThread] at hct
  · intro required
    refine ⟨?_, hjoin required, ?_⟩
    · rw [Join_data, GetReviewersAlias_eq_map]
      simp [List.map_map, Function.comp_def]
    · simp only [balancerComment, String.data_append]
      exact infix_append_right _ _ _ (List.infix_refl _)
  · have := hjoin [alice, bob]
    have e : (Join (GetReviewersAlias [alice, bob]) ",") = "alice,bob" := by decide
    rwa [e] at this

/-- C7 at the baseline deployment: the one `CreateThread` call of the run on
pull request 42 carries the comment for `alice` and `bob`. -/
theorem comment_names_required_witness :
    (newCalls (start () demoRepo) (balanceReview demo pr42 (start () demoRepo)).2).filter
        Call.isCreateThread =
      [Call.CreateThread "repo-1" 42 (balancerComment [alice, bob] defaultBotIdentifier)] ∧
    "alice,bob".data <:+: (balancerComment [alice, bob] demo.botIdentifier).data :=
  ⟨rfl, (comment_names_required demo pr42 (start () demoRepo)).2.2.2⟩

/-! ## C9: failures before any reviewer is registered -/

/-- C9: on a pull request for which the guard reports false, a failed reviewer
selection makes `balanceReview` return that error after the thread fetch alone
(no `UpdateRepository`, add-reviewer, `CreateThread` or trigger call), and a
failed `UpdateRepository` after a successful selection makes it return that
error with no add-reviewer, `CreateThread` or trigger call. -/
theorem balanceReview_aborts_early (a : AutoReviewer σ) (pr : PullRequest) (m : Machine σ)
    (hguard : (ContainsReviewBalancerComment a pr.RepositoryId pr.PullRequestId m).1 =
      .ok false) :
    (∀ err, (a.GetReviewers m.Repo.ReviewerGroups pr.CreatedById).1 = .error err →
      (balanceReview a pr m).1 = .error err ∧
      newCalls m (balanceReview a pr m).2 =
        [Call.GetThreads pr.RepositoryId pr.PullRequestId] ∧
      (newCalls m (balanceReview a pr m).2).filter Call.isEffect = []) ∧
    (∀ required optional err,
      (a.GetReviewers m.Repo.ReviewerGroups pr.CreatedById).1 = .ok (required, optional) →
      (a.UpdateRepository (a.GetThreads m.remote pr.RepositoryId pr.PullRequestId).2
        m.Repo.ID.Hex
        { m.Repo with ReviewerGroups :=
            (a.GetReviewers m.Repo.ReviewerGroups pr.CreatedById).2 }).1 = .error err →
      (balanceReview a pr m).1 = .error err ∧
      newCalls m (balanceReview a pr m).2 =
        [Call.GetThreads pr.RepositoryId pr.PullRequestId,
          Call.UpdateRepository m.Repo.ID.Hex
            { m.Repo with ReviewerGroups :=
                (a.GetReviewers m.Repo.ReviewerGroups pr.CreatedById).2 }] ∧
      (newCalls m (balanceReview a pr m).2).filter
        (fun c => c.isAddReviewer || c.isCreateThread || c.isTrigger) = []) := by
  have hG := guard_machine a pr.RepositoryId pr.PullRequestId m
  rcases hg : ContainsReviewBalancerComment a pr.RepositoryId pr.PullRequestId m with ⟨g, mG⟩
  rw [hg] at hG hguard
  simp only at hG hguard
  subst hguard
  constructor
  · intro err hs
    have e : balanceReview a pr m = (.error err,
        { mG with Repo := { mG.Repo with ReviewerGroups :=
            (a.GetReviewers mG.Repo.ReviewerGroups pr.CreatedById).2 } }) := by
      have hs2 : (a.GetReviewers mG.Repo.ReviewerGroups pr.CreatedById).1 = .error err := by
        rw [hG]; exact hs
      simp only [balanceReview, hg, hs2]
    have ht : (balanceReview a pr m).2.trace =
        m.trace ++ [Call.GetThreads pr.RepositoryId pr.PullRequestId] := by
      rw [e, hG]
    rw [newCalls_append m _ _ ht, e]
    exact ⟨rfl, rfl, rfl⟩
  · intro required optional err hs hu
    have hs2 : (a.GetReviewers mG.Repo.ReviewerGroups pr.CreatedById).1 =
        .ok (required, optional) := by
      rw [hG]; exact hs
    have hu2 : (a.UpdateRepository mG.remote mG.Repo.ID.Hex
        { mG.Repo with ReviewerGroups :=
            (a.GetReviewers mG.Repo.ReviewerGroups pr.CreatedById).2 }).1 = .error err := by
      rw [hG]; exact hu
    have e : balanceReview a pr m = (.error err,
        { mG with
          remote := (a.UpdateRepository mG.remote mG.Repo.ID.Hex
            { mG.Repo with ReviewerGroups :=
                (a.GetReviewers mG.Repo.ReviewerGroups pr.CreatedById).2 }).2
          Repo := { mG.Repo with ReviewerGroups :=
            (a.GetReviewers mG.Repo.ReviewerGroups pr.CreatedById).2 }
          trace := mG.trace ++ [Call.UpdateRepository mG.Repo.ID.Hex
            { mG.Repo with ReviewerGroups :=
                (a.GetReviewers mG.Repo.ReviewerGroups pr.CreatedById).2 }] }) := by
      simp only [balanceReview, hg, hs2, updateRepository, hu2]
    have ht : (balanceReview a pr m).2.trace =
        m.trace ++ [Call.GetThreads pr.RepositoryId pr.PullRequestId,
          Call.UpdateRepository m.Repo.ID.Hex
            { m.Repo with ReviewerGroups :=
                (a.GetReviewers m.Repo.ReviewerGroups pr.CreatedById).2 }] := by
      rw [e, hG]; simp
    rw [newCalls_append m _ _ ht, e]
    exact ⟨rfl, rfl, rfl⟩

/-- C9 at pull request 41, whose author `erin` has no reviewers, and at pull
request 42 with a repository store that is down. -/
theorem balanceReview_aborts_early_witness :
    (ContainsReviewBalancerComment demo pr41.RepositoryId pr41.PullRequestId
      (start () demoRepo)).1 = .ok false ∧
    (demo.GetReviewers demoRepo.ReviewerGroups pr41.CreatedById).1 =
      .error "no reviewers for author" ∧
    (balanceReview demo pr41 (start () demoRepo)).1 = .error "no reviewers for author" ∧
    newCalls (start () demoRepo) (balanceReview demo pr41 (start () demoRepo)).2 =
      [Call.GetThreads "repo-1" 41] ∧
    (balanceReview demoStoreDown pr42 (start () demoRepo)).1 = .error "store down" ∧
    (newCalls (start () demoRepo) (balanceReview demoStoreDown pr42 (start () demoRepo)).2).filter
      (fun c => c.isAddReviewer || c.isCreateThread || c.isTrigger) = [] :=
  ⟨rfl, rfl,
    ((balanceReview_aborts_early demo pr41 (start () demoRepo) rfl).1
      "no reviewers for author" rfl).1,
    ((balanceReview_aborts_early demo pr41 (start () demoRepo) rfl).1
      "no reviewers for author" rfl).2.1,
    ((balanceReview_aborts_early demoStoreDown pr42 (start () demoRepo) rfl).2
      [alice, bob] [carol] "store down" rfl rfl).1,
    ((balanceReview_aborts_early demoStoreDown pr42 (start () demoRepo) rfl).2
      [alice, bob] [carol] "store down" rfl rfl).2.2⟩

/-! ## C2: the second run is a no-op -/

theorem guard_store (a : AutoReviewer σ) (repositoryID : String) (pullRequestID : Int)
    (m : Machine (ThreadStore × σ)) :
    ContainsReviewBalancerComment (withThreadStore a) repositoryID pullRequestID m =
      (threadsContain a.botIdentifier (threadsOf m.remote.1 repositoryID pullRequestID),
        { m with trace := m.trace ++ [Call.GetThreads repositoryID pullRequestID] }) := by
  simp [ContainsReviewBalancerComment, withThreadStore]

theorem runTriggers_store (requiredReviewers : List Reviewer)
    (url : String) (triggers : List (ReviewerTrigger σ)) (index : Nat)
    (m : Machine (ThreadStore × σ)) :
    (runTriggers requiredReviewers url
      (triggers.map (fun rTrigger w reviewers url =>
        liftOp (fun s => rTrigger s reviewers url) w)) index m).remote.1 = m.remote.1 := by
  induction triggers generalizing index m with
  | nil => rfl
  | cons t ts ih =>
    simp only [List.map_cons, runTriggers]
    rw [ih]
    rfl

theorem addReviewersLoop_store (a : AutoReviewer σ) (pullRequestID : Int) (repoID : String)
    (reviewers : List Reviewer) (m : Machine (ThreadStore × σ)) :
    (addReviewersLoop (withThreadStore a) pullRequestID repoID reviewers m).2.remote.1 =
      m.remote.1 := by
  induction reviewers generalizing m with
  | nil => rfl
  | cons rv rest ih =>
    rcases h : ((withThreadStore a).CreatePullRequestReviewer m.remote rv.AdoID repoID
      pullRequestID).1 with e | u
    · simp only [addReviewersLoop, h]
      rfl
    · simp only [addReviewersLoop, h]
      rw [ih]
      rfl

theorem balancerComment_marked (required : List Reviewer) (bot : String) :
    Contains (balancerComment required bot) bot = true := by
  rw [Contains_iff]
  simp only [balancerComment, String.data_append]
  exact infix_append_right _ _ _ (List.infix_refl _)

theorem threadsOf_append (store : ThreadStore) (repositoryID : String) (pullRequestID : Int)
    (thread : CommentThread) :
    threadsOf (store ++ [(repositoryID, pullRequestID, thread)]) repositoryID pullRequestID =
      threadsOf store repositoryID pullRequestID ++ [thread] := by
  simp [threadsOf, List.filter_append]

theorem threadsContain_append_false (bot : String) (l1 l2 : List CommentThread)
    (h : threadsContain bot l1 = .ok false) :
    threadsContain bot (l1 ++ l2) = threadsContain bot l2 := by
  induction l1 with
  | nil => rfl
  | cons t ts ih =>
    simp only [threadsContain, List.cons_append] at h ⊢
    rcases hc : t.Comments with _ | comments
    · simp [hc] at h
    · simp only [hc] at h ⊢
      rcases hcc : commentsContain bot comments with b | e | e
      · cases b
        · simp only [hcc] at h ⊢
          exact ih h
        · simp [hcc] at h
      · simp [hcc] at h
      · simp [hcc] at h

/-- After a run of `balanceReview` that returned success, the scan of the
threads stored under the pull request returns true. -/
theorem first_run_marks (a : AutoReviewer σ) (pr : PullRequest)
    (m : Machine (ThreadStore × σ))
    (h : (balanceReview (withThreadStore a) pr m).1 = .ok ()) :
    threadsContain a.botIdentifier
      (threadsOf (balanceReview (withThreadStore a) pr m).2.remote.1
        pr.RepositoryId pr.PullRequestId) = .ok true := by
  unfold balanceReview at h ⊢
  rw [guard_store] at h ⊢
  rcases hb : threadsContain a.botIdentifier (threadsOf m.remote.1 pr.RepositoryId
      pr.PullRequestId) with b | e | e
  · rw [hb] at h
    cases b
    · simp only at h ⊢
      rcases hs : ((withThreadStore a).GetReviewers m.Repo.ReviewerGroups pr.CreatedById).1 with
        e | ⟨required, optional⟩
      · rw [hs] at h; simp at h
      · rw [hs] at h
        simp only at h ⊢
        rcases hU : updateRepository (withThreadStore a) m.Repo.ID.Hex
          { m with Repo := { m.Repo with ReviewerGroups :=
                      ((withThreadStore a).GetReviewers m.Repo.ReviewerGroups pr.CreatedById).2 }
                   trace := m.trace ++ [Call.GetThreads pr.RepositoryId pr.PullRequestId] }
          with ⟨rU, mU⟩
        have hUs : mU.remote.1 = m.remote.1 := by
          have := congrArg (fun x => x.2.remote.1) hU
          simpa [updateRepository, withThreadStore, liftOp] using this.symm
        rw [hU] at h
        rcases rU with e | u
        · simp at h
        · simp only at h ⊢
          have hAs := addReviewersLoop_store a pr.PullRequestId pr.RepositoryId
            (required ++ optional) mU
          rcases hA : AddReviewers (withThreadStore a) pr.PullRequestId pr.RepositoryId required
            optional mU with ⟨rA, mA⟩
          have hA2 : addReviewersLoop (withThreadStore a) pr.PullRequestId pr.RepositoryId
            (required ++ optional) mU = (rA, mA) := hA
          rw [hA2] at hAs
          simp only at hAs
          rw [hA] at h
          rcases rA with u | e | e
          · simp only at h ⊢
            rcases hC : createThread (withThreadStore a) pr.RepositoryId pr.PullRequestId
              (balancerComment required (withThreadStore a).botIdentifier) mA with ⟨rC, mC⟩
            rw [hC] at h
            rcases rC with e | u
            · simp at h
            · simp only
              have htr : (withThreadStore a).reviewerTriggers =
                  a.reviewerTriggers.map (fun rTrigger w reviewers url =>
                    liftOp (fun s => rTrigger s reviewers url) w) := rfl
              rw [htr, runTriggers_store]
              simp only [createThread] at hC
              have hC1 := congrArg Prod.fst hC
              have hC2 := congrArg Prod.snd hC
              simp only at hC1 hC2
              rw [← hC2]
              simp only [withThreadStore] at hC1 ⊢
              split at hC1
              · rename_i u4 s hct
                simp only [hct, threadsOf_append]
                rw [hAs, hUs, threadsContain_append_false _ _ _ hb]
                simp [threadsContain, commentsContain, balancerComment_marked]
              · simp at hC1
          · simp at h
          · simp at h
    · simpa using hb
  · rw [hb] at h; simp at h
  · rw [hb] at h; simp at h

theorem balanceReview_marked (a : AutoReviewer σ) (pr : PullRequest)
    (m : Machine (ThreadStore × σ))
    (h : threadsContain a.botIdentifier
      (threadsOf m.remote.1 pr.RepositoryId pr.PullRequestId) = .ok true) :
    balanceReview (withThreadStore a) pr m =
      (.ok (), { m with trace := m.trace ++
        [Call.GetThreads pr.RepositoryId pr.PullRequestId] }) := by
  unfold balanceReview
  rw [guard_store, h]

/-- C2: against a thread store that changes only through `CreateThread`, when a
run of `balanceReview` on a pull request has returned success (its comment is
in the store), a second run on the same pull request returns success after the
thread fetch alone: it makes no `UpdateRepository`, add-reviewer, `CreateThread`
or trigger call, so the two runs together made at most one `CreateThread` call
and no add-reviewer call beyond those of the first run. -/
theorem second_run_is_noop (a : AutoReviewer σ) (pr : PullRequest)
    (m : Machine (ThreadStore × σ))
    (h : (balanceReview (withThreadStore a) pr m).1 = .ok ()) :
    balanceReview (withThreadStore a) pr (balanceReview (withThreadStore a) pr m).2 =
      (.ok (), { (balanceReview (withThreadStore a) pr m).2 with
        trace := (balanceReview (withThreadStore a) pr m).2.trace ++
          [Call.GetThreads pr.RepositoryId pr.PullRequestId] }) ∧
    (newCalls (balanceReview (withThreadStore a) pr m).2
      (balanceReview (withThreadStore a) pr (balanceReview (withThreadStore a) pr m).2).2).filter
        Call.isEffect = [] ∧
    ((newCalls m
      (balanceReview (withThreadStore a) pr (balanceReview (withThreadStore a) pr m).2).2).filter
        Call.isCreateThread).length ≤ 1 ∧
    (newCalls m
      (balanceReview (withThreadStore a) pr (balanceReview (withThreadStore a) pr m).2).2).filter
        Call.isAddReviewer =
      (newCalls m (balanceReview (withThreadStore a) pr m).2).filter Call.isAddReviewer := by
  have hmark := first_run_marks a pr m h
  have e : balanceReview (withThreadStore a) pr (balanceReview (withThreadStore a) pr m).2 =
      (.ok (), { (balanceReview (withThreadStore a) pr m).2 with
        trace := (balanceReview (withThreadStore a) pr m).2.trace ++
          [Call.GetThreads pr.RepositoryId pr.PullRequestId] }) := by
    exact balanceReview_marked a pr _ hmark
  obtain ⟨upd, adds, thr, trig, ht, hupd, _, hadds, hthr, htrig⟩ :=
    balanceReview_trace (withThreadStore a) pr m
  refine ⟨e, ?_, ?_, ?_⟩
  · rw [e, newCalls_append _ _ [Call.GetThreads pr.RepositoryId pr.PullRequestId] rfl]
    rfl
  · rw [e]
    have ht2 : (({ (balanceReview (withThreadStore a) pr m).2 with
        trace := (balanceReview (withThreadStore a) pr m).2.trace ++
          [Call.GetThreads pr.RepositoryId pr.PullRequestId] } : Machine (ThreadStore × σ))).trace =
        m.trace ++ (Call.GetThreads pr.RepositoryId pr.PullRequestId ::
          (upd ++ adds ++ thr ++ trig) ++ [Call.GetThreads pr.RepositoryId pr.PullRequestId]) := by
      simp [ht]
    rw [newCalls_append m _ _ ht2]
    have h1 : upd.filter Call.isCreateThread = [] := by
      rw [List.filter_eq_nil_iff]
      intro c hc
      have := hupd c hc
      cases c <;> simp_all [Call.isCreateThread, Call.isUpdateRepository]
    have h2 : adds.filter Call.isCreateThread = [] := by
      rw [List.filter_eq_nil_iff]
      intro c hc
      have := hadds c hc
      cases c <;> simp_all [Call.isCreateThread, Call.isAddReviewer]
    have h3 : trig.filter Call.isCreateThread = [] := by
      rw [List.filter_eq_nil_iff]
      intro c hc
      obtain ⟨i, rs, url, rfl⟩ := htrig c hc
      simp [Call.isCreateThread]
    have h4 : (thr.filter Call.isCreateThread).length ≤ 1 := by
      rcases hthr with rfl | ⟨_, _, _, rfl⟩
      · simp
      · simp [Call.isCreateThread]
    simp only [List.cons_append, List.filter_cons, List.filter_append, h1, h2, h3,
      Call.isCreateThread, List.filter_nil, List.append_nil, List.nil_append]
    simpa using h4
  · rw [e]
    have ht2 : (({ (balanceReview (withThreadStore a) pr m).2 with
        trace := (balanceReview (withThreadStore a) pr m).2.trace ++
          [Call.GetThreads pr.RepositoryId pr.PullRequestId] } : Machine (ThreadStore × σ))).trace =
        m.trace ++ (Call.GetThreads pr.RepositoryId pr.PullRequestId ::
          (upd ++ adds ++ thr ++ trig) ++ [Call.GetThreads pr.RepositoryId pr.PullRequestId]) := by
      simp [ht]
    rw [newCalls_append m _ _ ht2, newCalls_append m _ _ ht]
    simp [List.filter_cons, List.filter_append, Call.isAddReviewer]

set_option maxRecDepth 100000 in
/-- C2 at the baseline deployment in front of an empty thread store: the first
run on pull request 42 registers three reviewers and posts one comment, the
second run only fetches the threads. -/
theorem second_run_is_noop_witness :
    (balanceReview (withThreadStore demo) pr42 (start ([], ()) demoRepo)).1 = .ok () ∧
    ((newCalls (start ([], ()) demoRepo)
      (balanceReview (withThreadStore demo) pr42 (start ([], ()) demoRepo)).2).filter
        Call.isAddReviewer).length = 3 ∧
    newCalls (balanceReview (withThreadStore demo) pr42 (start ([], ()) demoRepo)).2
      (balanceReview (withThreadStore demo) pr42
        (balanceReview (withThreadStore demo) pr42 (start ([], ()) demoRepo)).2).2 =
      [Call.GetThreads "repo-1" 42] ∧
    (newCalls (balanceReview (withThreadStore demo) pr42 (start ([], ()) demoRepo)).2
      (balanceReview (withThreadStore demo) pr42
        (balanceReview (withThreadStore demo) pr42 (start ([], ()) demoRepo)).2).2).filter
        Call.isEffect = [] :=
  ⟨rfl, rfl, rfl,
    (second_run_is_noop demo pr42 (start ([], ()) demoRepo) rfl).2.1⟩

/-! ## C8: the batch -/

theorem balanceReview_panic_iff (a : AutoReviewer σ) (pr : PullRequest) (m : Machine σ)
    (err : String) :
    (balanceReview a pr m).1 = .panic err ↔
      (ContainsReviewBalancerComment a pr.RepositoryId pr.PullRequestId m).1 = .panic err := by
  unfold balanceReview
  rcases hg : ContainsReviewBalancerComment a pr.RepositoryId pr.PullRequestId m with ⟨g, mG⟩
  rcases g with b | e | e
  · cases b
    · simp only
      rcases hs : (a.GetReviewers mG.Repo.ReviewerGroups pr.CreatedById).1 with
        e | ⟨required, optional⟩
      · simp
      · simp only
        rcases hU : updateRepository a mG.Repo.ID.Hex
          { mG with Repo := { mG.Repo with ReviewerGroups :=
                      (a.GetReviewers mG.Repo.ReviewerGroups pr.CreatedById).2 } }
          with ⟨rU, mU⟩
        rcases rU with e | u
        · simp
        · simp only
          have hnp := addReviewersLoop_ne_panic a pr.PullRequestId pr.RepositoryId
            (required ++ optional) mU
          rcases hA : AddReviewers a pr.PullRequestId pr.RepositoryId required optional mU with
            ⟨rA, mA⟩
          have hA2 : addReviewersLoop a pr.PullRequestId pr.RepositoryId
            (required ++ optional) mU = (rA, mA) := hA
          rw [hA2] at hnp
          rcases rA with u | e | e
          · simp only
            rcases hC : createThread a pr.RepositoryId pr.PullRequestId
              (balancerComment required a.botIdentifier) mA with ⟨rC, mC⟩
            rcases rC with e | u <;> simp
          · simp
          · exact absurd rfl (hnp e)
    · simp
  · simp
  · simp

theorem balanceReview_fetches (a : AutoReviewer σ) (pr : PullRequest) (m : Machine σ) :
    ∃ new, (balanceReview a pr m).2.trace = m.trace ++ new ∧
      new.filterMap Call.threadFetch = [(pr.RepositoryId, pr.PullRequestId)] := by
  obtain ⟨upd, adds, thr, trig, ht, hupd, _, hadds, hthr, htrig⟩ := balanceReview_trace a pr m
  refine ⟨_, ht, ?_⟩
  have h1 : upd.filterMap Call.threadFetch = [] := by
    rw [List.filterMap_eq_nil_iff]
    intro c hc
    have := hupd c hc
    cases c <;> simp_all [Call.threadFetch, Call.isUpdateRepository]
  have h2 : adds.filterMap Call.threadFetch = [] := by
    rw [List.filterMap_eq_nil_iff]
    intro c hc
    have := hadds c hc
    cases c <;> simp_all [Call.threadFetch, Call.isAddReviewer]
  have h3 : trig.filterMap Call.threadFetch = [] := by
    rw [List.filterMap_eq_nil_iff]
    intro c hc
    obtain ⟨i, rs, url, rfl⟩ := htrig c hc
    rfl
  have h4 : thr.filterMap Call.threadFetch = [] := by
    rcases hthr with rfl | ⟨_, _, _, rfl⟩
    · rfl
    · rfl
  simp [List.filterMap_cons, List.filterMap_append, h1, h2, h3, h4, Call.threadFetch]

theorem balanceAll_spec (a : AutoReviewer σ) (pullRequests : List PullRequest)
    (m : Machine σ) (hG : guardsReturn a pullRequests m = true) :
    (balanceAll a pullRequests m).1 = .ok () ∧
    ∃ new, (balanceAll a pullRequests m).2.trace = m.trace ++ new ∧
      new.filterMap Call.threadFetch = unfilteredFetches a pullRequests := by
  induction pullRequests generalizing m with
  | nil => exact ⟨rfl, [], by simp [balanceAll], rfl⟩
  | cons pr rest ih =>
    by_cases hf : shouldFilter a pr = true
    · have e : balanceAll a (pr :: rest) m = balanceAll a rest m := by
        simp [balanceAll, hf]
      have e2 : unfilteredFetches a (pr :: rest) = unfilteredFetches a rest := by
        simp [unfilteredFetches, hf]
      have hG2 : guardsReturn a rest m = true := by
        simpa [guardsReturn, hf] using hG
      rw [e, e2]
      exact ih m hG2
    · have hG1 : (∀ err, (ContainsReviewBalancerComment a pr.RepositoryId pr.PullRequestId
            m).1 ≠ .panic err) ∧ guardsReturn a rest (balanceReview a pr m).2 = true := by
        simp only [guardsReturn, hf] at hG
        rcases hg : (ContainsReviewBalancerComment a pr.RepositoryId pr.PullRequestId m).1 with
          b | e | e
        · rw [hg] at hG
          exact ⟨by simp, by simpa using hG⟩
        · rw [hg] at hG
          exact ⟨by simp, by simpa using hG⟩
        · rw [hg] at hG
          simp at hG
      have hnp : ∀ err, (balanceReview a pr m).1 ≠ .panic err := by
        intro err hp
        rw [balanceReview_panic_iff] at hp
        exact hG1.1 err hp
      have e : balanceAll a (pr :: rest) m = balanceAll a rest (balanceReview a pr m).2 := by
        rcases hb : balanceReview a pr m with ⟨r, m1⟩
        rw [hb] at hnp
        rcases r with u | e | e
        · simp [balanceAll, hf, hb]
        · simp [balanceAll, hf, hb]
        · exact absurd rfl (hnp e)
      have e2 : unfilteredFetches a (pr :: rest) =
          (pr.RepositoryId, pr.PullRequestId) :: unfilteredFetches a rest := by
        simp [unfilteredFetches, hf]
      obtain ⟨new1, h1, h2⟩ := balanceReview_fetches a pr m
      obtain ⟨hok, new2, h3, h4⟩ := ih (balanceReview a pr m).2 hG1.2
      rw [e, e2]
      refine ⟨hok, new1 ++ new2, by rw [h3, h1, List.append_assoc], ?_⟩
      rw [List.filterMap_append, h2, h4]
      rfl

/-- C8 fails as stated, in two ways.  With a bootstrap that succeeds and a pull
request listing that fails, `Run` returns an error.  With a bootstrap and a
listing that succeed and a thread fetch that fails for pull request 41, `Run`
does not return: it panics, and the balancing of pull request 42, which is
not filtered out, is never started. -/
theorem Run_fails_after_bootstrap :
    ((ensureRepo demoListingDown (start () demoRepo)).1 = .ok () ∧
      (Run demoListingDown (start () demoRepo)).1 =
        .error "get pull requests error: unreachable") ∧
    ((ensureRepo demoThreadsDown (start () demoRepo)).1 = .ok () ∧
      (getPullRequests demoThreadsDown (ensureRepo demoThreadsDown (start () demoRepo)).2).1 =
        .ok [pr41, pr42] ∧
      unfilteredFetches demoThreadsDown [pr41, pr42] = [("repo-1", 41), ("repo-1", 42)] ∧
      (Run demoThreadsDown (start () demoRepo)).1 = .panic "timeout" ∧
      (Run demoThreadsDown (start () demoRepo)).2.trace.filterMap Call.threadFetch =
        [("repo-1", 41)]) :=
  ⟨⟨by decide, by decide⟩, by decide, rfl, by decide, by decide, by decide⟩

/-- C8, amended: `Run` returns the error of a failed bootstrap, and the error of
a failed pull request listing; when both succeed and every guard check that the
batch makes returns, `Run` returns success whatever `balanceReview` returns on
the way, and the balancing of every pull request that is not filtered out has
been started (its thread fetch made), in the order of the listing. -/
theorem Run_outcome (a : AutoReviewer σ) (m : Machine σ) :
    (∀ err, (ensureRepo a m).1 = .error err → (Run a m).1 = .error err) ∧
    ((ensureRepo a m).1 = .ok () →
      (∀ err, (getPullRequests a (ensureRepo a m).2).1 = .error err →
        (Run a m).1 = .error ("get pull requests error: " ++ err)) ∧
      (∀ pullRequests,
        (getPullRequests a (ensureRepo a m).2).1 = .ok pullRequests →
        guardsReturn a pullRequests (getPullRequests a (ensureRepo a m).2).2 = true →
        (Run a m).1 = .ok () ∧
        (newCalls (getPullRequests a (ensureRepo a m).2).2 (Run a m).2).filterMap
            Call.threadFetch =
          unfilteredFetches a pullRequests)) := by
  rcases hE : ensureRepo a m with ⟨rE, mE⟩
  constructor
  · intro err h
    simp only at h
    subst h
    simp [Run, hE]
  · intro h
    simp only at h
    subst h
    simp only
    rcases hL : getPullRequests a mE with ⟨rL, mL⟩
    constructor
    · intro err hp
      simp only at hp
      subst hp
      simp [Run, hE, hL]
    · intro pullRequests hp hG
      simp only at hp hG
      subst hp
      have e : Run a m = balanceAll a pullRequests mL := by
        simp [Run, hE, hL]
      obtain ⟨hok, new, h1, h2⟩ := balanceAll_spec a pullRequests mL hG
      rw [e]
      refine ⟨hok, ?_⟩
      rw [newCalls_append mL _ _ h1]
      exact h2

/-- C8, amended, at the baseline deployment: balancing pull request 41 fails
(its author has no reviewers), pull request 42 is balanced all the same, and
`Run` returns success. -/
theorem Run_outcome_witness :
    (ensureRepo demo (start () demoRepo)).1 = .ok () ∧
    (getPullRequests demo (ensureRepo demo (start () demoRepo)).2).1 = .ok [pr41, pr42] ∧
    guardsReturn demo [pr41, pr42]
      (getPullRequests demo (ensureRepo demo (start () demoRepo)).2).2 = true ∧
    (balanceReview demo pr41
      (getPullRequests demo (ensureRepo demo (start () demoRepo)).2).2).1 =
        .error "no reviewers for author" ∧
    (Run demo (start () demoRepo)).1 = .ok () ∧
    (newCalls (getPullRequests demo (ensureRepo demo (start () demoRepo)).2).2
      (Run demo (start () demoRepo)).2).filterMap Call.threadFetch =
      unfilteredFetches demo [pr41, pr42] ∧
    unfilteredFetches demo [pr41, pr42] = [("repo-1", 41), ("repo-1", 42)] :=
  ⟨by decide, rfl, by decide, by decide,
    (((Run_outcome demo (start () demoRepo)).2 (by decide)).2 [pr41, pr42] rfl
      (by decide)).1,
    (((Run_outcome demo (start () demoRepo)).2 (by decide)).2 [pr41, pr42] rfl
      (by decide)).2,
    by decide⟩

/-! ## C10: persistence of resolved ids in the bootstrap -/

/-- C10 fails on the code: with two unresolved reviewers, of which the first
has an identity and the second has none, `ensureRepo` writes the id of the
first into the in-memory entity and returns the lookup error of the second
without any `UpdateRepository` call. -/
theorem ensureRepo_loses_resolved_id :
    (ensureRepo demo (start () unresolvedRepo)).1 = .error "identity not found" ∧
    (ensureRepo demo (start () unresolvedRepo)).2.Repo.ReviewerGroups =
      [{ Group := "core", Owners := ["dave"]
         Reviewers := [{ Alias := "alice", AdoID := "id-alice" },
                       { Alias := "mallory", AdoID := "" }] }] ∧
    (ensureRepo demo (start () unresolvedRepo)).2.trace =
      [Call.GetDevOpsIdentity "alice", Call.GetDevOpsIdentity "mallory"] ∧
    (ensureRepo demo (start () unresolvedRepo)).2.trace.filter Call.isUpdateRepository = [] := by
  decide

end autoreviewer
